import Mathlib

/-!
# Verification of the streaming XML component-extraction engine

This file embeds, in Lean, the capture state machine of
`skills/bpmn-to-react-converter/scripts/extract-components.js` (class
`ComponentExtractor`) and the complexity scoring of `analyze-bpmn.js`
(class `BPMNAnalyzer`), and proves or refutes the frozen claims about
them.

The streaming SAX walker is an external collaborator (the `sax` npm
package, not part of this repository). Following the specification,
its output is modelled as a sequence of `ParseEvent`s with attributes
given as a string-to-string map, produced by a recursive-descent
tokenizer (`tokenize`) that reports malformed documents as a terminal
error signal carrying a best-effort character offset.

File-system writes (`fs.writeFileSync`) and console logging are
modelled as lists of `SavedFile` records and log lines accumulated in
the extractor state, in call order.
-/

namespace BPMNExtract

/-! ## Character and string utilities -/

/-- Whitespace as recognised by the JavaScript runtime for the inputs
considered here (space, tab, newline, carriage return). -/
def isWS (c : Char) : Bool := c = ' ' || c = '\t' || c = '\n' || c = '\r'

/-- Leading-and-trailing whitespace removal on character lists; the model
of the JavaScript `String.prototype.trim`. -/
def trimL (l : List Char) : List Char :=
  ((l.dropWhile isWS).reverse.dropWhile isWS).reverse

/-- The model of the JavaScript `value.trim()`. -/
def jsTrim (s : String) : String := String.mk (trimL s.data)

/-- Global replacement of the single character `p` by the string `r`,
the semantics of one `str.replace(/p/g, r)` call. -/
def replaceChar (p : Char) (r : List Char) : List Char → List Char
  | [] => []
  | c :: cs => (if c = p then r else [c]) ++ replaceChar p r cs

/-- `escapeXML` from extract-components.js: the five sequential global
replacements of `&`, `<`, `>`, `"` and the apostrophe by their XML
entities, in that order. -/
def escapeXML (str : String) : String :=
  String.mk <|
    replaceChar '\x27' "&apos;".data <|
      replaceChar '"' "&quot;".data <|
        replaceChar '>' "&gt;".data <|
          replaceChar '<' "&lt;".data <|
            replaceChar '&' "&amp;".data str.data

/-- Per-character view of the five replacements of `escapeXML`; proved
equal to the sequential-replacement composition below. -/
def escapeChar (c : Char) : List Char :=
  if c = '&' then "&amp;".data
  else if c = '<' then "&lt;".data
  else if c = '>' then "&gt;".data
  else if c = '"' then "&quot;".data
  else if c = '\x27' then "&apos;".data
  else [c]

/-- Character-list form of `escapeXML` as a per-character expansion. -/
def escList : List Char → List Char
  | [] => []
  | c :: cs => escapeChar c ++ escList cs

/-- Entity decoding for the five entities produced by `escapeXML`,
i.e. the character-data decoding the walker performs when re-parsing. -/
def unesc : List Char → List Char
  | [] => []
  | '&' :: 'a' :: 'm' :: 'p' :: ';' :: r => '&' :: unesc r
  | '&' :: 'l' :: 't' :: ';' :: r => '<' :: unesc r
  | '&' :: 'g' :: 't' :: ';' :: r => '>' :: unesc r
  | '&' :: 'q' :: 'u' :: 'o' :: 't' :: ';' :: r => '"' :: unesc r
  | '&' :: 'a' :: 'p' :: 'o' :: 's' :: ';' :: r => '\x27' :: unesc r
  | c :: rest => c :: unesc rest

/-! ## Data model -/

/-- One event of the walker event stream (spec, ParseEvent): attributes
are a string-to-string map in document order. -/
inductive ParseEvent where
  | opentag (name : String) (attributes : List (String × String))
  | text (value : String)
  | closetag (name : String)
deriving Repr, DecidableEq

/-- One entry of the `capturedContent` buffer of `ComponentExtractor`:
open entries record name, attributes and relative depth
(`currentDepth - captureDepth`), text entries record the raw value,
close entries record name and relative depth after decrement. -/
inductive CapturedItem where
  | opentag (name : String) (attributes : List (String × String)) (depth : Int)
  | text (value : String)
  | closetag (name : String) (depth : Int)
deriving Repr, DecidableEq

/-- `componentMetadata` as built in the opentag handler: absent
attributes are `none` (JavaScript `undefined`). -/
structure Metadata where
  type : String
  id : Option String
  name : Option String
  attributes : List (String × String)
deriving Repr, DecidableEq

/-- One `fs.writeFileSync` call: target path and full content. -/
structure SavedFile where
  path : String
  content : String
deriving Repr, DecidableEq

/-- The mutable state of one `ComponentExtractor.extract` run:
the instance fields of the class together with the local variables of
`extract` (`currentDepth`, `capturedContent`, `componentMetadata`),
plus the writes and console lines it has produced so far. -/
structure ExtractorState where
  outputDir : String
  components : List Metadata
  captureDepth : Int
  capturingContent : Bool
  currentDepth : Int
  capturedContent : List CapturedItem
  componentMetadata : Option Metadata
  writes : List SavedFile
  logs : List String
deriving Repr, DecidableEq

/-- The state of a fresh `ComponentExtractor` at the start of `extract`. -/
def initState (outputDir : String) : ExtractorState :=
  { outputDir := outputDir
    components := []
    captureDepth := 0
    capturingContent := false
    currentDepth := 0
    capturedContent := []
    componentMetadata := none
    writes := []
    logs := [] }

/-! ## JavaScript value helpers -/

/-- Attribute lookup on the attribute map (`attributes.id` and the like);
`none` models JavaScript `undefined`. -/
def attrLookup (attrs : List (String × String)) (key : String) : Option String :=
  (attrs.find? (fun kv => kv.1 = key)).map (fun kv => kv.2)

/-- JavaScript `a || b` on possibly-undefined strings: the empty string
and `undefined` are falsy. -/
def jsOrOpt (a b : Option String) : Option String :=
  match a with
  | some s => if s = "" then b else some s
  | none => b

/-- JavaScript `a || d` with a string default. -/
def jsOrStr (a : Option String) (d : String) : String :=
  match a with
  | some s => if s = "" then d else s
  | none => d

/-- A possibly-undefined string interpolated into a template literal:
JavaScript renders `undefined` as the string "undefined". -/
def templStr (a : Option String) : String := a.getD "undefined"

/-- `componentType.toLowerCase()`: ASCII lower-casing, character by
character. -/
def jsToLower (s : String) : String := String.mk (s.data.map Char.toLower)

/-! ## The selection predicate (`shouldCapture`) -/

/-- The `typeMap` object literal of `shouldCapture`, looked up at the
lower-cased component type. -/
def typeMapLookup (t : String) : Option (List String) :=
  if t = "coachview" then some ["coachView"]
  else if t = "service" then some ["humanService", "service"]
  else if t = "process" then some ["process", "bpdProcess"]
  else if t = "task" then some ["serviceTask", "scriptTask", "userTask"]
  else none

/-- `shouldCapture(tagName, attributes)` from extract-components.js,
with the enclosing `componentType` and `componentId` parameters made
explicit. A supplied (truthy) component id must equal the id attribute;
then the tag name is checked against the requested type category. -/
def shouldCapture (componentType : String) (componentId : Option String)
    (tagName : String) (attributes : List (String × String)) : Bool :=
  let idMismatch :=
    match componentId with
    | some cid => cid != "" && attrLookup attributes "id" != some cid
    | none => false
  if idMismatch then false
  else if componentType = "all" then
    ["coachView", "humanService", "service", "process", "bpdProcess",
      "serviceTask"].contains tagName
  else
    match typeMapLookup (jsToLower componentType) with
    | some tags => tags.contains tagName
    | none => false

/-! ## Serialization (`escapeXML` already above, `reconstructXML`, JSON) -/

/-- `indent.repeat(n)` with the two-space indent unit. -/
def indentStr (n : Nat) : String := String.mk (List.replicate (2 * n) ' ')

/-- The attribute text emitted inside an open tag: one
` key="escapedValue"` group per attribute, in map order. -/
def attrText : List (String × String) → String
  | [] => ""
  | (k, v) :: rest => " " ++ k ++ "=\"" ++ escapeXML v ++ "\"" ++ attrText rest

/-- The line-by-line body of `reconstructXML`: the indent level is a
natural number (it never goes below zero on the balanced buffers the
extractor produces, which are the only call sites). -/
def reconstructLines : List CapturedItem → Nat → String
  | [], _ => ""
  | .opentag name attrs _ :: rest, lvl =>
      indentStr lvl ++ "<" ++ name ++ attrText attrs ++ ">\n"
        ++ reconstructLines rest (lvl + 1)
  | .text v :: rest, lvl =>
      indentStr lvl ++ escapeXML (jsTrim v) ++ "\n" ++ reconstructLines rest lvl
  | .closetag name _ :: rest, lvl =>
      indentStr (lvl - 1) ++ "</" ++ name ++ ">\n"
        ++ reconstructLines rest (lvl - 1)

/-- `reconstructXML(capturedContent)`: the XML prologue followed by the
re-serialized, re-indented buffer with escaped attribute and text
values. -/
def reconstructXML (capturedContent : List CapturedItem) : String :=
  "<?xml version=\"1.0\" encoding=\"UTF-8\"?>\n"
    ++ reconstructLines capturedContent 0

/-- JSON string escaping for the characters occurring in the data
handled here (quote, backslash, and the common control characters);
the model of the escaping done by `JSON.stringify`. -/
def jsonEscChar (c : Char) : List Char :=
  if c = '"' then ['\\', '"']
  else if c = '\\' then ['\\', '\\']
  else if c = '\n' then ['\\', 'n']
  else if c = '\t' then ['\\', 't']
  else if c = '\r' then ['\\', 'r']
  else [c]

/-- Character-list fold of `jsonEscChar`. -/
def jsonEscList : List Char → List Char
  | [] => []
  | c :: cs => jsonEscChar c ++ jsonEscList cs

/-- JSON escaping on strings. -/
def jsonEscape (s : String) : String := String.mk (jsonEscList s.data)

/-- A JSON string literal. -/
def jsonStr (s : String) : String := "\"" ++ jsonEscape s ++ "\""

/-- The nested `attributes` object inside the metadata sidecar, as
`JSON.stringify(metadata, null, 2)` renders it (indent 4 for entries). -/
def attrsJSON (attrs : List (String × String)) : String :=
  if attrs.isEmpty then "\x7b\x7d"
  else
    "\x7b\n"
      ++ String.intercalate ",\n"
          (attrs.map (fun kv => "    " ++ jsonStr kv.1 ++ ": " ++ jsonStr kv.2))
      ++ "\n  \x7d"

/-- `JSON.stringify(metadata, null, 2)`: keys in insertion order
(`type`, `id`, `name`, `attributes`); keys whose value is `undefined`
are omitted, as `JSON.stringify` does. -/
def metadataJSON (md : Metadata) : String :=
  let fields :=
    ([some ("\"type\": " ++ jsonStr md.type),
      md.id.map (fun i => "\"id\": " ++ jsonStr i),
      md.name.map (fun n => "\"name\": " ++ jsonStr n),
      some ("\"attributes\": " ++ attrsJSON md.attributes)] : List (Option String))
  "\x7b\n"
    ++ String.intercalate ",\n" ((fields.filterMap id).map (fun f => "  " ++ f))
    ++ "\n\x7d"

/-! ## The extractor handlers -/

/-- `saveComponent(metadata, capturedContent)`: writes the per-component
XML file and JSON sidecar (file base name `metadata.id || 'unnamed'`)
and logs the `Extracted:` line. -/
def saveComponent (s : ExtractorState) (metadata : Metadata)
    (capturedContent : List CapturedItem) : ExtractorState :=
  let typeDir := s.outputDir ++ "/" ++ metadata.type
  let baseName := jsOrStr metadata.id "unnamed"
  let xmlFile : SavedFile :=
    { path := typeDir ++ "/" ++ baseName ++ ".xml"
      content := reconstructXML capturedContent }
  let jsonFile : SavedFile :=
    { path := typeDir ++ "/" ++ baseName ++ ".json"
      content := metadataJSON metadata }
  { s with
      writes := s.writes ++ [xmlFile, jsonFile]
      logs := s.logs ++
        ["Extracted: " ++ metadata.type ++ "/"
          ++ templStr (jsOrOpt metadata.name metadata.id)] }

/-- The `opentag` handler: start a capture when idle and the predicate
matches; append the open event to the buffer whenever capturing; then
increment the depth. -/
def onOpenTag (componentType : String) (componentId : Option String)
    (s : ExtractorState) (name : String)
    (attributes : List (String × String)) : ExtractorState :=
  let s :=
    if !s.capturingContent && shouldCapture componentType componentId name attributes then
      { s with
          capturingContent := true
          captureDepth := s.currentDepth
          capturedContent := []
          componentMetadata := some
            { type := name
              id := attrLookup attributes "id"
              name := jsOrOpt (attrLookup attributes "name") (attrLookup attributes "id")
              attributes := attributes } }
    else s
  let s :=
    if s.capturingContent then
      { s with
          capturedContent := s.capturedContent
            ++ [.opentag name attributes (s.currentDepth - s.captureDepth)] }
    else s
  { s with currentDepth := s.currentDepth + 1 }

/-- The `text` handler: buffer the raw text only while capturing and
only when it is not whitespace-only. -/
def onText (s : ExtractorState) (t : String) : ExtractorState :=
  if s.capturingContent && jsTrim t != "" then
    { s with capturedContent := s.capturedContent ++ [.text t] }
  else s

/-- The `closetag` handler: decrement the depth, append the close event
while capturing, and finalize the capture (save, record the component,
reset the session) exactly when the depth has returned to the capture
start depth. -/
def onCloseTag (s : ExtractorState) (tagName : String) : ExtractorState :=
  let s := { s with currentDepth := s.currentDepth - 1 }
  if s.capturingContent then
    let s :=
      { s with
          capturedContent := s.capturedContent
            ++ [.closetag tagName (s.currentDepth - s.captureDepth)] }
    if s.currentDepth = s.captureDepth then
      let s :=
        match s.componentMetadata with
        | some md =>
            let s := saveComponent s md s.capturedContent
            { s with components := s.components ++ [md] }
        | none => s
      { s with
          capturingContent := false
          capturedContent := []
          componentMetadata := none }
    else s
  else s

/-- Dispatch of one walker event to its handler. -/
def stepEvent (componentType : String) (componentId : Option String)
    (s : ExtractorState) : ParseEvent → ExtractorState
  | .opentag name attributes => onOpenTag componentType componentId s name attributes
  | .text t => onText s t
  | .closetag name => onCloseTag s name

/-- A whole event sequence folded through the handlers. -/
def runEvents (componentType : String) (componentId : Option String)
    (s : ExtractorState) (events : List ParseEvent) : ExtractorState :=
  events.foldl (stepEvent componentType componentId) s

/-! ## The walker (spec-modelled tokenizer)

Modelled from the spec: the streaming walker (the external `sax`
collaborator, configured with `trim:false, normalize:false`) turns the
document string into ordered `ParseEvent`s — one open per start tag
(self-closing tags emit open immediately followed by close), one text
event per maximal run of character data (entity references decoded),
one close per end tag — and reports a malformed document (mismatched
or unclosed tags, invalid syntax) as a terminal error signal with a
best-effort character offset. -/

/-- Characters allowed in the tag and attribute names considered here. -/
def isNameChar (c : Char) : Bool :=
  c.isAlphanum || c = '_' || c = '-' || c = '.' || c = ':'

/-- Attribute-list parsing inside a start tag: skips whitespace, then
either the tag end (`>` or `/>`, the boolean result records
self-closing) or one `name="value"` pair, with the value entity-decoded. -/
def readAttrs : Nat → List Char → Option (List (String × String) × Bool × List Char)
  | 0, _ => none
  | fuel + 1, cs =>
    let cs1 := cs.dropWhile isWS
    match cs1 with
    | [] => none
    | c :: r =>
      if c = '>' then some ([], false, r)
      else if c = '/' then
        match r with
        | '>' :: r2 => some ([], true, r2)
        | _ => none
      else
        let n := cs1.takeWhile isNameChar
        let cs2 := cs1.dropWhile isNameChar
        if n.isEmpty then none
        else
          match cs2 with
          | '=' :: '"' :: cs3 =>
            let v := cs3.takeWhile (fun c => !(c = '"'))
            let cs4 := cs3.dropWhile (fun c => !(c = '"'))
            match cs4 with
            | '"' :: cs5 =>
              match readAttrs fuel cs5 with
              | some (attrs, sc, rest) =>
                some ((String.mk n, String.mk (unesc v)) :: attrs, sc, rest)
              | none => none
            | _ => none
          | _ => none

/-- Prepend one event to a tokenizer result. -/
def consEvent (e : ParseEvent) (p : List ParseEvent × Option (String × Nat)) :
    List ParseEvent × Option (String × Nat) :=
  (e :: p.1, p.2)

/-- The tokenizer loop: `total` is the document length (for error
offsets), the `List String` argument is the open-tag stack used to
detect mismatched and unclosed tags. -/
def tokenizeAux (total : Nat) : Nat → List Char → List String →
    List ParseEvent × Option (String × Nat)
  | 0, cs, _ => ([], some ("fuel exhausted", total - cs.length))
  | fuel + 1, cs, stack =>
    match cs with
    | [] =>
      ([], if stack.isEmpty then none
           else some ("Unexpected end of document", total))
    | c :: rest =>
      if c = '<' then
        match rest with
        | [] => ([], some ("Unexpected end of document", total))
        | d :: rest2 =>
          if d = '?' then
            let r := rest2.dropWhile (fun c => !(c = '>'))
            match r with
            | '>' :: r2 => tokenizeAux total fuel r2 stack
            | _ => ([], some ("Unclosed processing instruction", total - cs.length))
          else if d = '/' then
            let n := rest2.takeWhile isNameChar
            let r := rest2.dropWhile isNameChar
            if n.isEmpty then ([], some ("Invalid closing tag", total - cs.length))
            else
              match r with
              | '>' :: r2 =>
                match stack with
                | top :: stack2 =>
                  if top = String.mk n then
                    consEvent (.closetag (String.mk n))
                      (tokenizeAux total fuel r2 stack2)
                  else ([], some ("Unexpected close tag", total - cs.length))
                | [] => ([], some ("Unmatched closing tag", total - cs.length))
              | _ => ([], some ("Invalid closing tag", total - cs.length))
          else
            let n := rest.takeWhile isNameChar
            let r := rest.dropWhile isNameChar
            if n.isEmpty then ([], some ("Invalid tag name", total - cs.length))
            else
              match readAttrs (fuel + 1) r with
              | some (attrs, true, r2) =>
                consEvent (.opentag (String.mk n) attrs)
                  (consEvent (.closetag (String.mk n))
                    (tokenizeAux total fuel r2 stack))
              | some (attrs, false, r2) =>
                consEvent (.opentag (String.mk n) attrs)
                  (tokenizeAux total fuel r2 (String.mk n :: stack))
              | none => ([], some ("Invalid attribute syntax", total - cs.length))
      else
        let t := cs.takeWhile (fun c => !(c = '<'))
        let r := cs.dropWhile (fun c => !(c = '<'))
        consEvent (.text (String.mk (unesc t))) (tokenizeAux total fuel r stack)

/-- The walker on a whole document. -/
def tokenize (doc : String) : List ParseEvent × Option (String × Nat) :=
  tokenizeAux doc.data.length (doc.data.length + 1) doc.data []

/-! ## The promise-level run and the CLI pipeline -/

/-- The settlement of the promise returned by
`ComponentExtractor.extract`: resolution value of the `end` handler, or
rejection with the walker error. -/
inductive ExtractOutcome where
  | resolved (extractedCount : Nat) (components : List Metadata) (outputDir : String)
  | rejected (message : String) (position : Nat)
deriving Repr, DecidableEq

/-- One full `extract(xmlFilePath, componentType, componentId)` run on
the document text: every event the walker produced before its terminal
signal is handled in order; a walker error rejects the promise, a clean
end resolves it with the component list. -/
def extract (doc componentType : String) (componentId : Option String)
    (outputDir : String) : ExtractOutcome × ExtractorState :=
  let p := tokenize doc
  let s := runEvents componentType componentId (initState outputDir) p.1
  match p.2 with
  | some e => (.rejected e.1 e.2, s)
  | none => (.resolved s.components.length s.components s.outputDir, s)

/-- One entry of `index.components` in `generateIndex`: note the `path`
template `${c.type}/${c.id}.xml` renders an undefined id as the string
"undefined". -/
def indexEntryJSON (c : Metadata) : String :=
  let fields :=
    ([some ("\"type\": " ++ jsonStr c.type),
      c.id.map (fun i => "\"id\": " ++ jsonStr i),
      c.name.map (fun n => "\"name\": " ++ jsonStr n),
      some ("\"path\": " ++ jsonStr (c.type ++ "/" ++ templStr c.id ++ ".xml"))] :
      List (Option String))
  "    \x7b\n"
    ++ String.intercalate ",\n" ((fields.filterMap id).map (fun f => "      " ++ f))
    ++ "\n    \x7d"

/-- The content of `index.json` written by `generateIndex`:
`extractedAt` is the run timestamp `new Date().toISOString()`, passed
in here as the `now` parameter. -/
def indexJSON (now : String) (components : List Metadata) : String :=
  let comps :=
    if components.isEmpty then "[]"
    else
      "[\n" ++ String.intercalate ",\n" (components.map indexEntryJSON)
        ++ "\n  ]"
  "\x7b\n  \"extractedAt\": " ++ jsonStr now
    ++ ",\n  \"totalComponents\": " ++ toString components.length
    ++ ",\n  \"components\": " ++ comps ++ "\n\x7d"

/-- `generateIndex()` as the file it writes. -/
def generateIndex (now : String) (s : ExtractorState) : SavedFile :=
  { path := s.outputDir ++ "/index.json", content := indexJSON now s.components }

/-- The main-script pipeline around one run: on resolution the index is
written and the process exits 0; on rejection no index is written and
the process exits 1. The result lists every file written during the
run, in write order. -/
def runPipeline (doc componentType : String) (componentId : Option String)
    (outputDir now : String) : List SavedFile × Nat :=
  match extract doc componentType componentId outputDir with
  | (.resolved _ _ _, s) => (s.writes ++ [generateIndex now s], 0)
  | (.rejected _ _, s) => (s.writes, 1)

/-! ## The analyzer complexity scoring (analyze-bpmn.js) -/

/-- The final counters of one `BPMNAnalyzer` scan that feed
`calculateComplexity`: list lengths, the distinct data-binding set
size, and the maximum nesting depth seen. -/
structure AnalyzerCounts where
  coachViews : Nat
  humanServices : Nat
  bpdProcesses : Nat
  serviceTasks : Nat
  dataBindings : Nat
  maxNestingDepth : Nat
deriving Repr, DecidableEq

/-- `calculateComplexityScore()`: component score
`(coachViews + humanServices) * 2`, nesting score `maxNestingDepth * 5`,
binding score `dataBindings * 1`, service score `serviceTasks * 3`. -/
def calculateComplexityScore (a : AnalyzerCounts) : Nat :=
  (a.coachViews + a.humanServices) * 2 + a.maxNestingDepth * 5
    + a.dataBindings * 1 + a.serviceTasks * 3

/-- `getComplexityRecommendation()`: the four ordinal tiers bucketed at
the thresholds 50, 150 and 300. -/
def getComplexityRecommendation (a : AnalyzerCounts) : String :=
  let score := calculateComplexityScore a
  if score < 50 then "LOW: Can be converted in a single pass"
  else if score < 150 then "MEDIUM: Recommend component-by-component conversion"
  else if score < 300 then "HIGH: Requires chunked processing and template generation"
  else "VERY HIGH: Requires incremental migration with multiple templates"

/-- The ordinal rank of a recommendation tier string. -/
def tierRank (r : String) : Nat :=
  if r = "LOW: Can be converted in a single pass" then 0
  else if r = "MEDIUM: Recommend component-by-component conversion" then 1
  else if r = "HIGH: Requires chunked processing and template generation" then 2
  else 3

/-- The tier of a raw score, for stating monotonicity of the bucketing. -/
def tierOfScore (s : Nat) : Nat :=
  if s < 50 then 0 else if s < 150 then 1 else if s < 300 then 2 else 3

/-! ## Derived notions used by the stated properties -/

/-- Net depth change of one event: +1 for open, -1 for close. -/
def eventDelta : ParseEvent → Int
  | .opentag _ _ => 1
  | .text _ => 0
  | .closetag _ => -1

/-- Net depth change of an event sequence: +1 per open, -1 per close. -/
def depthDelta : List ParseEvent → Int
  | [] => 0
  | .opentag _ _ :: r => 1 + depthDelta r
  | .text _ :: r => depthDelta r
  | .closetag _ :: r => -1 + depthDelta r

/-- The largest capture-buffer length reached while feeding `events`
from state `s`: the buffering memory peak of the scan. -/
def peakBuffer (componentType : String) (componentId : Option String)
    (s : ExtractorState) : List ParseEvent → Nat
  | [] => s.capturedContent.length
  | e :: r =>
    max s.capturedContent.length
      (peakBuffer componentType componentId (stepEvent componentType componentId s e) r)

/-- An event contains no open tag satisfying the selection predicate
(the shape of a subtree the extractor never captures). -/
def nonMatching (componentType : String) (componentId : Option String) :
    ParseEvent → Bool
  | .opentag n a => !shouldCapture componentType componentId n a
  | _ => true

/-- The walker event a buffer entry records (forgetting the relative
depth bookkeeping). -/
def itemEvent : CapturedItem → ParseEvent
  | .opentag n a _ => .opentag n a
  | .text v => .text v
  | .closetag n _ => .closetag n

/-- Whitespace normalization of an event sequence: whitespace-only text
events are dropped and remaining text values are trimmed; tags are kept
as they are. -/
def normEvents (l : List ParseEvent) : List ParseEvent :=
  l.filterMap fun e =>
    match e with
    | .text v => if jsTrim v = "" then none else some (.text (jsTrim v))
    | e => some e

/-- Normalized view of a capture buffer. -/
def normItems (b : List CapturedItem) : List ParseEvent :=
  normEvents (b.map itemEvent)

/-- A tag or attribute name the walker can produce, restricted to the
common XML name characters. -/
def validName (s : String) : Bool := !s.data.isEmpty && s.data.all isNameChar

/-- Structural well-formedness of a capture buffer relative to an
open-tag stack: names are valid, closes match their opens, text occurs
only inside the subtree, is never whitespace-only (the text handler
filters those out) and is always followed by a tag (the walker emits
maximal character-data runs), and nothing follows the close of the
root. -/
def wfItems : List CapturedItem → List String → Bool
  | [], st => st.isEmpty
  | .opentag n attrs _ :: rest, st =>
    validName n && attrs.all (fun kv => validName kv.1) && wfItems rest (n :: st)
  | .text v :: rest, st =>
    !st.isEmpty && !(jsTrim v == "") &&
      (match rest with
       | .text _ :: _ => false
       | [] => false
       | _ => true) &&
      wfItems rest st
  | .closetag n _ :: rest, st =>
    match st with
    | top :: st2 =>
      validName n && top == n &&
        (if st2.isEmpty then rest.isEmpty else wfItems rest st2)
    | [] => false

/-- A well-formed capture buffer: a single complete subtree rooted at
its first (open) entry — the shape of every buffer `saveComponent`
receives. -/
def wfBuffer (b : List CapturedItem) : Bool :=
  match b with
  | .opentag _ _ _ :: _ => wfItems b []
  | _ => false

/-- The character stream of the re-serialized buffer from its first tag
onward (the position the tokenizer is at after consuming the
indentation preceding a tag). Only meaningful for tag-headed buffers. -/
def tagChars : List CapturedItem → Nat → List Char
  | .opentag n a _ :: rest, lvl =>
    '<' :: (n.data ++ (attrText a).data ++ '>' :: '\n'
      :: (reconstructLines rest (lvl + 1)).data)
  | .closetag n _ :: rest, lvl =>
    '<' :: '/' :: (n.data ++ '>' :: '\n' :: (reconstructLines rest (lvl - 1)).data)
  | _, _ => []

/-- The indent level of the first line a buffer produces. -/
def headIndent : List CapturedItem → Nat → Nat
  | .closetag _ _ :: _, lvl => lvl - 1
  | _, lvl => lvl

/-- Does the buffer start with a tag entry? -/
def tagHeaded : List CapturedItem → Bool
  | .opentag _ _ _ :: _ => true
  | .closetag _ _ :: _ => true
  | _ => false

/-- Round-trip induction statement at a tag position: the tokenizer,
standing at the first `<` of the re-serialized buffer, accepts the
stream and produces events normalizing to the buffer. -/
def TokQ (L : List CapturedItem) : Prop :=
  tagHeaded L = true →
  ∀ (st : List String) (lvl fuel total : Nat), wfItems L st = true →
    (tagChars L lvl).length < fuel →
    ∃ E, tokenizeAux total fuel (tagChars L lvl) st = (E, none) ∧
      normEvents E = normItems L

/-- Round-trip induction statement at a line boundary: the tokenizer,
standing just before the newline that precedes the re-serialized
buffer, accepts the stream and produces events normalizing to the
buffer. -/
def TokP (L : List CapturedItem) : Prop :=
  ∀ (st : List String) (lvl fuel total : Nat), wfItems L st = true →
    ('\n' :: (reconstructLines L lvl).data).length < fuel →
    ∃ E, tokenizeAux total fuel ('\n' :: (reconstructLines L lvl).data) st = (E, none) ∧
      normEvents E = normItems L

/-! # Theorems

First the helper lemmas shared between claims, then one theorem per
claim (with its witness or counterexample where required). -/

/-- Bucketing the recommendation string and ranking it back agree with
bucketing the raw score. -/
lemma tierRank_rec (a : AnalyzerCounts) :
    tierRank (getComplexityRecommendation a) =
      tierOfScore (calculateComplexityScore a) := by
  simp only [getComplexityRecommendation, tierOfScore]
  split
  · rfl
  · split
    · rfl
    · split <;> rfl

/-- The score bucketing is monotone. -/
lemma tierOfScore_mono {x y : Nat} (h : x ≤ y) : tierOfScore x ≤ tierOfScore y := by
  simp only [tierOfScore]
  split_ifs <;> omega

/-- Claim C7: the ComplexityScore is the weighted linear combination
`(coachViews + humanServices) * 2 + maxNestingDepth * 5 +
dataBindings * 1 + serviceTasks * 3` bucketed into four ordinal tiers
at 50/150/300; increasing any one counter while holding the others
fixed (stated here in the stronger pointwise form) never decreases the
score and never lowers the recommendation tier. -/
theorem c7_score_monotone (a b : AnalyzerCounts)
    (h1 : a.coachViews ≤ b.coachViews)
    (h2 : a.humanServices ≤ b.humanServices)
    (h3 : a.bpdProcesses ≤ b.bpdProcesses)
    (h4 : a.serviceTasks ≤ b.serviceTasks)
    (h5 : a.dataBindings ≤ b.dataBindings)
    (h6 : a.maxNestingDepth ≤ b.maxNestingDepth) :
    calculateComplexityScore a ≤ calculateComplexityScore b ∧
      tierRank (getComplexityRecommendation a) ≤
        tierRank (getComplexityRecommendation b) := by
  have hs : calculateComplexityScore a ≤ calculateComplexityScore b := by
    simp only [calculateComplexityScore]
    omega
  exact ⟨hs, by rw [tierRank_rec, tierRank_rec]; exact tierOfScore_mono hs⟩

/-- Witness for C7 at concrete counters. -/
theorem c7_witness :
    calculateComplexityScore ⟨1, 0, 0, 0, 2, 3⟩ ≤
        calculateComplexityScore ⟨1, 0, 0, 4, 2, 3⟩ ∧
      tierRank (getComplexityRecommendation ⟨1, 0, 0, 0, 2, 3⟩) ≤
        tierRank (getComplexityRecommendation ⟨1, 0, 0, 4, 2, 3⟩) :=
  c7_score_monotone _ _ (by decide) (by decide) (by decide) (by decide)
    (by decide) (by decide)

set_option maxRecDepth 8000 in
/-- Claim C10: a matched element without an id attribute is written
under the fallback base name "unnamed" (`<type>/unnamed.xml` and
`<type>/unnamed.json`, so id-less components of one type overwrite each
other), while the inventory index records the path
`<type>/undefined.xml` for it — a path at which no file was written. -/
theorem c10_unnamed_vs_undefined (s : ExtractorState) (md : Metadata)
    (cc : List CapturedItem) (hid : md.id = none) :
    (saveComponent s md cc).writes = s.writes ++
      [{ path := s.outputDir ++ "/" ++ md.type ++ "/" ++ "unnamed.xml"
         content := reconstructXML cc },
       { path := s.outputDir ++ "/" ++ md.type ++ "/" ++ "unnamed.json"
         content := metadataJSON md }] ∧
    md.type ++ "/" ++ templStr md.id ++ ".xml" = md.type ++ "/" ++ "undefined.xml" ∧
    ((runPipeline "<m><coachView a=\"x\"></coachView><coachView b=\"y\"></coachView></m>"
        "coachview" none "out" "T").1.map SavedFile.path =
      ["out/coachView/unnamed.xml", "out/coachView/unnamed.json",
       "out/coachView/unnamed.xml", "out/coachView/unnamed.json",
       "out/index.json"]) ∧
    ¬ "out/coachView/undefined.xml" ∈
      (runPipeline "<m><coachView a=\"x\"></coachView><coachView b=\"y\"></coachView></m>"
        "coachview" none "out" "T").1.map SavedFile.path ∧
    ((runPipeline "<m><coachView a=\"x\"></coachView><coachView b=\"y\"></coachView></m>"
        "coachview" none "out" "T").1.map SavedFile.content).getLast? = some
      ("\x7b\n  \"extractedAt\": \"T\",\n  \"totalComponents\": 2,\n  \"components\": [\n"
        ++ "    \x7b\n      \"type\": \"coachView\",\n      \"path\": \"coachView/undefined.xml\"\n    \x7d,\n"
        ++ "    \x7b\n      \"type\": \"coachView\",\n      \"path\": \"coachView/undefined.xml\"\n    \x7d\n  ]\n\x7d") := by
  refine ⟨?_, ?_, by decide, by decide, by decide⟩
  · have h1 : "unnamed" ++ ".xml" = "unnamed.xml" := rfl
    have h2 : "unnamed" ++ ".json" = "unnamed.json" := rfl
    simp only [saveComponent, hid, jsOrStr, String.append_assoc, h1, h2]
  · have h3 : "undefined" ++ ".xml" = "undefined.xml" := rfl
    simp [hid, templStr, String.append_assoc, h3]

/-- Witness for C10 at a concrete id-less metadata record. -/
theorem c10_witness :
    (saveComponent (initState "out") ⟨"coachView", none, none, []⟩ []).writes =
      [] ++
      [{ path := "out" ++ "/" ++ "coachView" ++ "/" ++ "unnamed.xml"
         content := reconstructXML [] },
       { path := "out" ++ "/" ++ "coachView" ++ "/" ++ "unnamed.json"
         content := metadataJSON ⟨"coachView", none, none, []⟩ }] ∧
    "coachView" ++ "/" ++ templStr (none : Option String) ++ ".xml" =
      "coachView" ++ "/" ++ "undefined.xml" :=
  ⟨(c10_unnamed_vs_undefined (initState "out") ⟨"coachView", none, none, []⟩ [] rfl).1,
   (c10_unnamed_vs_undefined (initState "out") ⟨"coachView", none, none, []⟩ [] rfl).2.1⟩

set_option maxRecDepth 8000 in
/-- Claim C1: on `<svc><coachView id="A"><coachView id="B"/></coachView></svc>`
with the coachView predicate and no id filter, a single pass produces
exactly one ExtractedComponent, with metadata id "A", whose serialized
fragment contains the nested coachView "B" element as buffered content;
no component is produced for "B". In general at most one CaptureSession
is active at a time: an open event arriving while a capture is active —
matching the predicate or not — is only appended to the current buffer;
it never starts a second session (depth, metadata, components and
writes of the active session are untouched). -/
theorem c1_single_pass_non_reentrant :
    ((extract "<svc><coachView id=\"A\"><coachView id=\"B\"/></coachView></svc>"
        "coachview" none "out").1 =
      .resolved 1
        [{ type := "coachView", id := some "A", name := some "A",
           attributes := [("id", "A")] }] "out") ∧
    ((extract "<svc><coachView id=\"A\"><coachView id=\"B\"/></coachView></svc>"
        "coachview" none "out").2.writes.map SavedFile.path =
      ["out/coachView/A.xml", "out/coachView/A.json"]) ∧
    List.IsInfix "<coachView id=\"B\">".data
      (((extract "<svc><coachView id=\"A\"><coachView id=\"B\"/></coachView></svc>"
          "coachview" none "out").2.writes.map SavedFile.content).headI.data) ∧
    (∀ ct ci s n a, s.capturingContent = true →
      onOpenTag ct ci s n a =
        { s with
            capturedContent := s.capturedContent
              ++ [.opentag n a (s.currentDepth - s.captureDepth)]
            currentDepth := s.currentDepth + 1 }) := by
  refine ⟨by decide, by decide, ?_, ?_⟩
  · refine ⟨"<?xml version=\"1.0\" encoding=\"UTF-8\"?>\n<coachView id=\"A\">\n  ".data,
      "\n  </coachView>\n</coachView>\n".data, ?_⟩
    decide
  · intro ct ci s n a h
    simp [onOpenTag, h]

/-- Witness for C1: the non-reentrancy step fact at a concrete
mid-capture state. -/
theorem c1_witness :
    onOpenTag "coachview" none
      { initState "out" with
          capturingContent := true
          captureDepth := 1
          currentDepth := 2 } "coachView" [("id", "B")] =
    { initState "out" with
        capturingContent := true
        captureDepth := 1
        currentDepth := 3
        capturedContent := [.opentag "coachView" [("id", "B")] 1] } :=
  c1_single_pass_non_reentrant.2.2.2 "coachview" none
    { initState "out" with
        capturingContent := true
        captureDepth := 1
        currentDepth := 2 } "coachView" [("id", "B")] rfl

/-- Claim C2: while a capture started at depth D is active, processing
a close event finalizes the session (saves the component with the close
appended to the buffer, records it, clears the buffer and the flags) if
and only if the depth after decrementing returns to D; a close of a
nested element (depth after decrement still above D) is appended to the
buffer and the capture continues with session fields untouched. -/
theorem c2_depth_closure (s : ExtractorState) (tag : String) (md : Metadata)
    (hc : s.capturingContent = true) (hm : s.componentMetadata = some md) :
    ((onCloseTag s tag).capturingContent = false ↔
      s.currentDepth - 1 = s.captureDepth) ∧
    (s.currentDepth - 1 = s.captureDepth →
      (onCloseTag s tag).capturedContent = [] ∧
      (onCloseTag s tag).componentMetadata = none ∧
      (onCloseTag s tag).components = s.components ++ [md] ∧
      (onCloseTag s tag).writes = s.writes ++
        [{ path := (s.outputDir ++ "/" ++ md.type ++ "/"
             ++ jsOrStr md.id "unnamed" ++ ".xml"),
           content := reconstructXML (s.capturedContent ++ [.closetag tag 0]) },
         { path := (s.outputDir ++ "/" ++ md.type ++ "/"
             ++ jsOrStr md.id "unnamed" ++ ".json"),
           content := metadataJSON md }] ∧
      (onCloseTag s tag).currentDepth = s.captureDepth) ∧
    (s.currentDepth - 1 ≠ s.captureDepth →
      (onCloseTag s tag).capturingContent = true ∧
      (onCloseTag s tag).capturedContent = s.capturedContent
        ++ [.closetag tag (s.currentDepth - 1 - s.captureDepth)] ∧
      (onCloseTag s tag).components = s.components ∧
      (onCloseTag s tag).writes = s.writes ∧
      (onCloseTag s tag).componentMetadata = some md ∧
      (onCloseTag s tag).captureDepth = s.captureDepth ∧
      (onCloseTag s tag).currentDepth = s.currentDepth - 1) := by
  refine ⟨?_, fun hd => ?_, fun hne => ?_⟩
  · by_cases hd : s.currentDepth - 1 = s.captureDepth
    · simp [onCloseTag, hc, hd, hm]
    · simp [onCloseTag, hc, hd, hm]
  · have h0 : s.currentDepth - 1 - s.captureDepth = 0 := by omega
    simp [onCloseTag, hc, hd, hm, saveComponent, h0]
  · simp [onCloseTag, hc, hne, hm]

/-- Witness for C2 at a concrete capturing state: the close that
returns the depth to the start depth finalizes, a nested close does
not. -/
theorem c2_witness :
    ((onCloseTag
        { initState "out" with
            capturingContent := true
            captureDepth := 1
            currentDepth := 2
            capturedContent := [.opentag "coachView" [("id", "A")] 0]
            componentMetadata := some ⟨"coachView", some "A", some "A", [("id", "A")]⟩ }
        "coachView").capturingContent = false ↔ (2 : Int) - 1 = 1) ∧
    ((onCloseTag
        { initState "out" with
            capturingContent := true
            captureDepth := 1
            currentDepth := 3
            capturedContent := [.opentag "coachView" [("id", "A")] 0]
            componentMetadata := some ⟨"coachView", some "A", some "A", [("id", "A")]⟩ }
        "inner").capturingContent = false ↔ (3 : Int) - 1 = 1) :=
  ⟨(c2_depth_closure _ "coachView" ⟨"coachView", some "A", some "A", [("id", "A")]⟩
      rfl rfl).1,
   (c2_depth_closure _ "inner" ⟨"coachView", some "A", some "A", [("id", "A")]⟩
      rfl rfl).1⟩

set_option maxRecDepth 8000 in
/-- Claim C8: a supplied component id adjusts the predicate to require
`attributes.id === componentId` on top of the tag check, so on the
nested-coachView document with id filter "B" the capture starts only at
the inner element and exactly one ExtractedComponent — for "B" alone —
is produced. -/
theorem c8_id_filter :
    (∀ ct tag attrs cid, cid ≠ "" → attrLookup attrs "id" ≠ some cid →
      shouldCapture ct (some cid) tag attrs = false) ∧
    (∀ ct tag attrs cid, attrLookup attrs "id" = some cid →
      shouldCapture ct (some cid) tag attrs = shouldCapture ct none tag attrs) ∧
    ((extract "<svc><coachView id=\"A\"><coachView id=\"B\"/></coachView></svc>"
        "coachview" (some "B") "out").1 =
      .resolved 1
        [{ type := "coachView", id := some "B", name := some "B",
           attributes := [("id", "B")] }] "out") ∧
    ((extract "<svc><coachView id=\"A\"><coachView id=\"B\"/></coachView></svc>"
        "coachview" (some "B") "out").2.writes.map SavedFile.path =
      ["out/coachView/B.xml", "out/coachView/B.json"]) := by
  refine ⟨?_, ?_, by decide, by decide⟩
  · intro ct tag attrs cid h1 h2
    have hb : (cid != "" && attrLookup attrs "id" != some cid) = true := by
      simp [bne_iff_ne, h1, h2]
    simp [shouldCapture, hb]
  · intro ct tag attrs cid h
    simp only [shouldCapture, h, bne_self_eq_false, Bool.and_false, if_false]

/-- Witness for C8: the adjusted predicate at concrete attribute maps. -/
theorem c8_witness :
    shouldCapture "coachview" (some "B") "coachView" [("id", "A")] = false ∧
    shouldCapture "coachview" (some "B") "coachView" [("id", "B")] =
      shouldCapture "coachview" none "coachView" [("id", "B")] :=
  ⟨c8_id_filter.1 "coachview" "coachView" [("id", "A")] "B" (by decide) (by decide),
   c8_id_filter.2.1 "coachview" "coachView" [("id", "B")] "B" (by decide)⟩

/-! ## Accounting and buffering invariants (shared helpers) -/

/-- Each handler preserves the accounting "one log line and two writes
per completed component". -/
lemma accounted_step (ct : String) (ci : Option String) (s : ExtractorState)
    (e : ParseEvent)
    (h1 : s.logs.length = s.components.length)
    (h2 : s.writes.length = 2 * s.components.length) :
    (stepEvent ct ci s e).logs.length = (stepEvent ct ci s e).components.length ∧
    (stepEvent ct ci s e).writes.length =
      2 * (stepEvent ct ci s e).components.length := by
  cases e with
  | opentag n a =>
    simp only [stepEvent, onOpenTag]
    split <;> split <;> simp [h1, h2]
  | text t =>
    simp only [stepEvent, onText]
    split <;> simp [h1, h2]
  | closetag n =>
    simp only [stepEvent, onCloseTag]
    split
    · split
      · cases hm : s.componentMetadata <;>
          simp [hm, saveComponent, h1, h2] <;> omega
      · simp [h1, h2]
    · simp [h1, h2]

/-- The accounting invariant holds after any run from any state that
satisfies it. -/
lemma accounted_run (ct : String) (ci : Option String) :
    ∀ (evts : List ParseEvent) (s : ExtractorState),
      s.logs.length = s.components.length →
      s.writes.length = 2 * s.components.length →
      (runEvents ct ci s evts).logs.length =
        (runEvents ct ci s evts).components.length ∧
      (runEvents ct ci s evts).writes.length =
        2 * (runEvents ct ci s evts).components.length := by
  intro evts
  induction evts with
  | nil => exact fun s h1 h2 => ⟨h1, h2⟩
  | cons e r ih =>
    intro s h1 h2
    have hstep := accounted_step ct ci s e h1 h2
    exact ih (stepEvent ct ci s e) hstep.1 hstep.2

/-- Each handler preserves "idle implies empty buffer". -/
lemma idleEmpty_step (ct : String) (ci : Option String) (s : ExtractorState)
    (e : ParseEvent) (h : s.capturingContent = false → s.capturedContent = []) :
    (stepEvent ct ci s e).capturingContent = false →
    (stepEvent ct ci s e).capturedContent = [] := by
  cases e with
  | opentag n a =>
    simp only [stepEvent, onOpenTag]
    split
    · intro hfalse
      simp at hfalse
    · split
      · simp_all
      · simp_all
  | text t =>
    simp only [stepEvent, onText]
    split
    · simp_all
    · simp_all
  | closetag n =>
    simp only [stepEvent, onCloseTag]
    split
    · split
      · cases hm : s.componentMetadata <;> simp [hm, saveComponent]
      · simp_all
    · simp_all

/-- "Idle implies empty buffer" holds after any run from any state that
satisfies it. -/
lemma idleEmpty_run (ct : String) (ci : Option String) :
    ∀ (evts : List ParseEvent) (s : ExtractorState),
      (s.capturingContent = false → s.capturedContent = []) →
      (runEvents ct ci s evts).capturingContent = false →
      (runEvents ct ci s evts).capturedContent = [] := by
  intro evts
  induction evts with
  | nil => exact fun s h => h
  | cons e r ih => exact fun s h => ih (stepEvent ct ci s e) (idleEmpty_step ct ci s e h)

/-- An idle-state step on an event whose open (if any) fails the
predicate only shifts the depth. -/
lemma step_invisible (ct : String) (ci : Option String) (s : ExtractorState)
    (e : ParseEvent) (hc : s.capturingContent = false)
    (hnm : nonMatching ct ci e = true) :
    stepEvent ct ci s e = { s with currentDepth := s.currentDepth + eventDelta e } := by
  cases e with
  | opentag n a =>
    have hsc : shouldCapture ct ci n a = false := by
      simpa [nonMatching] using hnm
    simp [stepEvent, onOpenTag, hc, hsc, eventDelta]
  | text t =>
    have hz : s.currentDepth + eventDelta (ParseEvent.text t) = s.currentDepth := by
      simp [eventDelta]
    rw [hz]
    have hs : stepEvent ct ci s (ParseEvent.text t) = s := by
      simp [stepEvent, onText, hc]
    rw [hs]
  | closetag n =>
    simp [stepEvent, onCloseTag, hc, eventDelta, sub_eq_add_neg]

/-- `depthDelta` of a cons. -/
lemma depthDelta_cons (e : ParseEvent) (l : List ParseEvent) :
    depthDelta (e :: l) = eventDelta e + depthDelta l := by
  cases e <;> simp [depthDelta, eventDelta]

/-- A run of invisible events from an idle state only shifts the depth. -/
lemma run_invisible (ct : String) (ci : Option String) :
    ∀ (mid : List ParseEvent) (s : ExtractorState),
      s.capturingContent = false →
      (∀ e ∈ mid, nonMatching ct ci e = true) →
      List.foldl (stepEvent ct ci) s mid =
        { s with currentDepth := s.currentDepth + depthDelta mid } := by
  intro mid
  induction mid with
  | nil => intro s _ _; simp [depthDelta]
  | cons e r ih =>
    intro s hc hnm
    have he := hnm e (by simp)
    have hr : ∀ x ∈ r, nonMatching ct ci x = true := fun x hx => hnm x (by simp [hx])
    have hstep := step_invisible ct ci s e hc he
    have hc2 : ({ s with currentDepth := s.currentDepth + eventDelta e} :
        ExtractorState).capturingContent = false := hc
    calc List.foldl (stepEvent ct ci) s (e :: r)
        = List.foldl (stepEvent ct ci)
            { s with currentDepth := s.currentDepth + eventDelta e } r := by
          simp [List.foldl, hstep]
      _ = { s with currentDepth := (s.currentDepth + eventDelta e) + depthDelta r } :=
          ih _ hc2 hr
      _ = { s with currentDepth := s.currentDepth + depthDelta (e :: r) } := by
          rw [depthDelta_cons]; ring_nf

/-- The current buffer length bounds the peak from here on. -/
lemma peak_ge (ct : String) (ci : Option String) :
    ∀ (l : List ParseEvent) (s : ExtractorState),
      s.capturedContent.length ≤ peakBuffer ct ci s l := by
  intro l
  induction l with
  | nil => intro s; exact le_refl _
  | cons e r _ => intro s; exact le_max_left _ _

/-- Peak over an appended run splits at the junction state. -/
lemma peak_append (ct : String) (ci : Option String) :
    ∀ (a b : List ParseEvent) (s : ExtractorState),
      peakBuffer ct ci s (a ++ b) =
        max (peakBuffer ct ci s a)
          (peakBuffer ct ci (List.foldl (stepEvent ct ci) s a) b) := by
  intro a
  induction a with
  | nil =>
    intro b s
    show peakBuffer ct ci s b = max s.capturedContent.length (peakBuffer ct ci s b)
    exact (max_eq_right (peak_ge ct ci b s)).symm
  | cons e r ih =>
    intro b s
    show max s.capturedContent.length
        (peakBuffer ct ci (stepEvent ct ci s e) (r ++ b)) =
      max (peakBuffer ct ci s (e :: r))
        (peakBuffer ct ci (List.foldl (stepEvent ct ci) s (e :: r)) b)
    rw [ih b (stepEvent ct ci s e), ← max_assoc]
    rfl

/-- The final extractor state of a run is the fold of the handlers over
the walker events, whatever the walker terminal signal was. -/
lemma extract_state (doc ct : String) (ci : Option String) (od : String) :
    (extract doc ct ci od).2 = runEvents ct ci (initState od) (tokenize doc).1 := by
  unfold extract
  cases h : (tokenize doc).2 <;> simp [h]

set_option maxRecDepth 8000 in
/-- Claim C5 counterexample: on the truncated document
`<svc><coachView id="A">` the stream ends while the capture for "A" is
still active, and the engine does not behave as the claim states: no
warning of any kind is logged (the console log list is empty), no
report or inventory artifact is produced (the run is rejected as
malformed and exits 1 with zero files written) — the partial fragment
is simply dropped. -/
theorem c5_counterexample :
    (extract "<svc><coachView id=\"A\">" "coachview" none "out").1 =
      .rejected "Unexpected end of document" 23 ∧
    (extract "<svc><coachView id=\"A\">" "coachview" none "out").2.capturingContent
      = true ∧
    (extract "<svc><coachView id=\"A\">" "coachview" none "out").2.logs = [] ∧
    (extract "<svc><coachView id=\"A\">" "coachview" none "out").2.writes = [] ∧
    runPipeline "<svc><coachView id=\"A\">" "coachview" none "out" "T" = ([], 1) := by
  exact ⟨by decide, by decide, by decide, by decide, by decide⟩

set_option maxRecDepth 8000 in
/-- Claim C5 as amended: when the input ends while a CaptureSession is
still active the engine discards the partial fragment silently rather
than reporting it — it never logs anything except the one `Extracted:`
line per completed component and never writes anything except the two
files per completed component (so no warning is emitted and no
XML/JSON artifact exists for the partial capture); the walker treats a
truncated document as malformed, so the run is rejected and no
report/inventory artifact is written at all, leaving only the
artifacts of components completed before the truncation point. -/
theorem c5_truncated_silent_amended :
    (∀ ct ci od evts,
      (runEvents ct ci (initState od) evts).logs.length =
        (runEvents ct ci (initState od) evts).components.length ∧
      (runEvents ct ci (initState od) evts).writes.length =
        2 * (runEvents ct ci (initState od) evts).components.length) ∧
    ((extract "<x><coachView id=\"C\">" "coachview" none "o").1 =
      .rejected "Unexpected end of document" 21 ∧
     (extract "<x><coachView id=\"C\">" "coachview" none "o").2.capturingContent
       = true ∧
     (extract "<x><coachView id=\"C\">" "coachview" none "o").2.logs = [] ∧
     runPipeline "<x><coachView id=\"C\">" "coachview" none "o" "T" = ([], 1)) := by
  refine ⟨fun ct ci od evts => ?_, by decide, by decide, by decide, by decide⟩
  exact accounted_run ct ci evts (initState od) rfl rfl

set_option maxRecDepth 8000 in
/-- Claim C4 counterexample: on the malformed document
`<svc><coachView id="A"></coachView><b></a>` the scan does fail fatally
at the mismatched close tag, but the run is not artifact-free: the two
files for the component "A", whose capture completed before the
malformation point, were already written. -/
theorem c4_counterexample :
    (extract "<svc><coachView id=\"A\"></coachView><b></a>" "coachview" none
        "out").1 = .rejected "Unexpected close tag" 38 ∧
    (extract "<svc><coachView id=\"A\"></coachView><b></a>" "coachview" none
        "out").2.writes.map SavedFile.path =
      ["out/coachView/A.xml", "out/coachView/A.json"] := by
  exact ⟨by decide, by decide⟩

set_option maxRecDepth 8000 in
/-- Claim C4 as amended: a malformed document fails the scan fatally
with the walker error (message and best-effort character offset)
propagated to the caller as the single failure result, with non-zero
process exit and no inventory artifact; the only files on disk are the
two per-component artifacts of each capture completed before the
malformation point — zero artifacts in the `<a><b></a>` scenario,
where nothing was captured. -/
theorem c4_malformed_fatal_amended :
    ((extract "<a><b></a>" "coachview" none "out").1 =
      .rejected "Unexpected close tag" 6) ∧
    ((extract "<a><b></a>" "coachview" none "out").2.writes = []) ∧
    (runPipeline "<a><b></a>" "coachview" none "out" "T" = ([], 1)) ∧
    (∀ doc ct ci od e, (tokenize doc).2 = some e →
      (extract doc ct ci od).1 = .rejected e.1 e.2) ∧
    (∀ doc ct ci od now m p, (extract doc ct ci od).1 = .rejected m p →
      runPipeline doc ct ci od now = ((extract doc ct ci od).2.writes, 1)) ∧
    (∀ doc ct ci od, (extract doc ct ci od).2.writes.length =
      2 * (extract doc ct ci od).2.components.length) := by
  refine ⟨by decide, by decide, by decide, ?_, ?_, ?_⟩
  · intro doc ct ci od e h
    simp [extract, h]
  · intro doc ct ci od now m p h
    simp only [runPipeline]
    rcases hE : extract doc ct ci od with ⟨o, s⟩
    rw [hE] at h
    cases o with
    | resolved k c d => exact absurd h (by simp)
    | rejected m2 p2 => simp
  · intro doc ct ci od
    rw [extract_state]
    exact (accounted_run ct ci (tokenize doc).1 (initState od) rfl rfl).2

/-- Witness for C4 (amended): the error-propagation fact applied at the
concrete mismatched document `<q></p>`. -/
theorem c4_witness :
    (extract "<q></p>" "all" none "o").1 = .rejected "Unexpected close tag" 3 :=
  c4_malformed_fatal_amended.2.2.2.1 "<q></p>" "all" none "o"
    ("Unexpected close tag", 3) (by decide)

/-- The run timestamp is recoverable from the index artifact: two index
contents for the same component list agree only if the embedded
`extractedAt` strings agree (stated for timestamps the JSON escaping
leaves unchanged, which is the case for ISO timestamps). -/
lemma indexJSON_time_inj (t1 t2 : String) (comps : List Metadata)
    (h1 : jsonEscape t1 = t1) (h2 : jsonEscape t2 = t2)
    (h : indexJSON t1 comps = indexJSON t2 comps) : t1 = t2 := by
  simp only [indexJSON, jsonStr, h1, h2] at h
  have hd := congrArg String.data h
  simp only [String.data_append, List.append_assoc] at hd
  exact String.ext (List.append_cancel_right
    (List.append_cancel_left (List.append_cancel_left hd)))

set_option maxRecDepth 8000 in
/-- Claim C6 counterexample: two runs on the same document with the
same parameters but different clock readings produce different output
artifact sets — the inventory index embeds the run timestamp. -/
theorem c6_counterexample :
    runPipeline "<svc><coachView id=\"A\"></coachView></svc>" "coachview" none
        "out" "2020-01-01T00:00:00.000Z" ≠
      runPipeline "<svc><coachView id=\"A\"></coachView></svc>" "coachview" none
        "out" "2021-02-02T03:04:05.678Z" := by
  decide

/-- Claim C6 as amended: re-running extraction on the same unmodified
document with the same parameters yields the same exit status, the same
artifact paths, and byte-identical per-component XML and JSON artifacts
(everything before the final index write); the full artifact sets are
byte-identical exactly when the two runs observe the same
`extractedAt` timestamp (or the run fails before the index is
written). -/
theorem c6_rerun_timestamp_amended (doc ct : String) (ci : Option String)
    (od t1 t2 : String) (h1 : jsonEscape t1 = t1) (h2 : jsonEscape t2 = t2) :
    (runPipeline doc ct ci od t1).2 = (runPipeline doc ct ci od t2).2 ∧
    (runPipeline doc ct ci od t1).1.map SavedFile.path =
      (runPipeline doc ct ci od t2).1.map SavedFile.path ∧
    (runPipeline doc ct ci od t1).1.dropLast =
      (runPipeline doc ct ci od t2).1.dropLast ∧
    ((runPipeline doc ct ci od t1).1 = (runPipeline doc ct ci od t2).1 ↔
      t1 = t2 ∨ (runPipeline doc ct ci od t1).2 = 1) := by
  simp only [runPipeline]
  rcases hE : extract doc ct ci od with ⟨o, s⟩
  cases o with
  | rejected m p => simp
  | resolved k c d =>
    refine ⟨rfl, by simp [generateIndex], by simp, ?_, ?_⟩
    · intro h
      left
      have h' := List.append_cancel_left h
      have hgen : generateIndex t1 s = generateIndex t2 s := by
        simpa using h'
      exact indexJSON_time_inj t1 t2 s.components h1 h2
        (congrArg SavedFile.content hgen)
    · rintro (h | h)
      · rw [h]
      · exact absurd h (by simp)

/-- Witness for C6 (amended) at a concrete document and concrete ISO
timestamps. -/
theorem c6_witness :
    ((runPipeline "<svc><coachView id=\"A\"></coachView></svc>" "coachview" none
        "out" "2020-01-01T00:00:00.000Z").1 =
      (runPipeline "<svc><coachView id=\"A\"></coachView></svc>" "coachview" none
        "out" "2021-02-02T03:04:05.678Z").1 ↔
      "2020-01-01T00:00:00.000Z" = "2021-02-02T03:04:05.678Z" ∨
      (runPipeline "<svc><coachView id=\"A\"></coachView></svc>" "coachview" none
        "out" "2020-01-01T00:00:00.000Z").2 = 1) :=
  (c6_rerun_timestamp_amended "<svc><coachView id=\"A\"></coachView></svc>"
    "coachview" none "out" "2020-01-01T00:00:00.000Z" "2021-02-02T03:04:05.678Z"
    (by decide) (by decide)).2.2.2

/-- Feeding a run of non-matching events into an idle engine with an
empty buffer leaves every intermediate buffer empty: the buffering peak
over the rest of the scan is unchanged, with only the depth shifted. -/
lemma peak_invisible (ct : String) (ci : Option String) :
    ∀ (mid post : List ParseEvent) (s : ExtractorState),
      s.capturingContent = false → s.capturedContent = [] →
      (∀ e ∈ mid, nonMatching ct ci e = true) →
      peakBuffer ct ci s (mid ++ post) =
        peakBuffer ct ci
          { s with currentDepth := s.currentDepth + depthDelta mid } post := by
  intro mid
  induction mid with
  | nil =>
    intro post s hc hb hnm
    have hz : s.currentDepth + depthDelta [] = s.currentDepth := by
      simp [depthDelta]
    rw [hz]
    rfl
  | cons e r ih =>
    intro post s hc hb hnm
    have he := hnm e (by simp)
    have hr : ∀ x ∈ r, nonMatching ct ci x = true := fun x hx => hnm x (by simp [hx])
    have hstep := step_invisible ct ci s e hc he
    show max s.capturedContent.length
        (peakBuffer ct ci (stepEvent ct ci s e) (r ++ post)) = _
    rw [hb, hstep,
      ih post { s with currentDepth := s.currentDepth + eventDelta e } hc hb hr]
    have harith : s.currentDepth + eventDelta e + depthDelta r =
        s.currentDepth + depthDelta (e :: r) := by
      rw [depthDelta_cons]; ring
    simp only [List.length_nil, Nat.zero_max]
    rw [harith, hb]

set_option maxRecDepth 8000 in
/-- Claim C9: buffering memory tracks only the subtree being captured,
not the whole document. Whenever the engine is idle the capture buffer
is empty (events are buffered only while a CaptureSession is active and
the buffer is cleared at each session end), and splicing any balanced
run of non-matching events — for example an arbitrarily large sibling
subtree the predicate rejects — into an idle point of the scan changes
neither the resulting state nor the peak buffer length of the scan. -/
theorem c9_bounded_buffer :
    (∀ ct ci od evts,
      (runEvents ct ci (initState od) evts).capturingContent = false →
      (runEvents ct ci (initState od) evts).capturedContent = []) ∧
    (∀ ct ci od pre mid post,
      (runEvents ct ci (initState od) pre).capturingContent = false →
      (∀ e ∈ mid, nonMatching ct ci e = true) →
      depthDelta mid = 0 →
      runEvents ct ci (initState od) (pre ++ mid ++ post) =
        runEvents ct ci (initState od) (pre ++ post) ∧
      peakBuffer ct ci (initState od) (pre ++ mid ++ post) =
        peakBuffer ct ci (initState od) (pre ++ post)) := by
  have hIdle : ∀ ct ci od evts,
      (runEvents ct ci (initState od) evts).capturingContent = false →
      (runEvents ct ci (initState od) evts).capturedContent = [] :=
    fun ct ci od evts => idleEmpty_run ct ci evts (initState od) (fun _ => rfl)
  refine ⟨hIdle, ?_⟩
  intro ct ci od pre mid post hc hnm hd
  have hc2 : (List.foldl (stepEvent ct ci) (initState od) pre).capturingContent
      = false := hc
  have hb : (List.foldl (stepEvent ct ci) (initState od) pre).capturedContent = [] :=
    hIdle ct ci od pre hc
  have hmid : List.foldl (stepEvent ct ci)
      (List.foldl (stepEvent ct ci) (initState od) pre) mid =
      List.foldl (stepEvent ct ci) (initState od) pre := by
    rw [run_invisible ct ci mid (List.foldl (stepEvent ct ci) (initState od) pre)
      hc2 hnm, hd]
    have hz : (List.foldl (stepEvent ct ci) (initState od) pre).currentDepth + 0 =
        (List.foldl (stepEvent ct ci) (initState od) pre).currentDepth := by ring
    rw [hz]
  constructor
  · show List.foldl (stepEvent ct ci) (initState od) (pre ++ mid ++ post) =
      List.foldl (stepEvent ct ci) (initState od) (pre ++ post)
    rw [List.foldl_append, List.foldl_append, List.foldl_append, hmid]
  · show peakBuffer ct ci (initState od) (pre ++ mid ++ post) =
      peakBuffer ct ci (initState od) (pre ++ post)
    rw [List.append_assoc, peak_append ct ci pre (mid ++ post),
      peak_invisible ct ci mid post (List.foldl (stepEvent ct ci) (initState od) pre)
        hc2 hb hnm, hd,
      peak_append ct ci pre post]
    have hz : (List.foldl (stepEvent ct ci) (initState od) pre).currentDepth + 0 =
        (List.foldl (stepEvent ct ci) (initState od) pre).currentDepth := by ring
    rw [hz]

/-- Witness for C9: splicing a concrete non-matching balanced subtree
into an idle point of a concrete scan leaves state and peak unchanged. -/
theorem c9_witness :
    runEvents "coachview" none (initState "o")
        ([] ++ [.opentag "huge" [], .closetag "huge"] ++
          [.opentag "coachView" [("id", "A")], .closetag "coachView"]) =
      runEvents "coachview" none (initState "o")
        ([] ++ [.opentag "coachView" [("id", "A")], .closetag "coachView"]) ∧
    peakBuffer "coachview" none (initState "o")
        ([] ++ [.opentag "huge" [], .closetag "huge"] ++
          [.opentag "coachView" [("id", "A")], .closetag "coachView"]) =
      peakBuffer "coachview" none (initState "o")
        ([] ++ [.opentag "coachView" [("id", "A")], .closetag "coachView"]) :=
  c9_bounded_buffer.2 "coachview" none "o" []
    [.opentag "huge" [], .closetag "huge"]
    [.opentag "coachView" [("id", "A")], .closetag "coachView"]
    rfl (by decide) (by decide)

/-! ## Escaping and entity-decoding lemmas (toward the round-trip C3) -/

lemma replaceChar_cons (p : Char) (r : List Char) (c : Char) (cs : List Char) :
    replaceChar p r (c :: cs) = (if c = p then r else [c]) ++ replaceChar p r cs :=
  rfl

lemma replaceChar_append (p : Char) (r a b : List Char) :
    replaceChar p r (a ++ b) = replaceChar p r a ++ replaceChar p r b := by
  induction a with
  | nil => rfl
  | cons c cs ih => simp [replaceChar_cons, ih]

/-- The five sequential replacements of `escapeXML` amount to the
per-character entity expansion. -/
lemma escapeXML_data (s : String) : (escapeXML s).data = escList s.data := by
  suffices h : ∀ l : List Char,
      replaceChar '\x27' "&apos;".data
        (replaceChar '"' "&quot;".data
          (replaceChar '>' "&gt;".data
            (replaceChar '<' "&lt;".data
              (replaceChar '&' "&amp;".data l)))) = escList l from h s.data
  intro l
  induction l with
  | nil => rfl
  | cons c cs ih =>
    show replaceChar '\x27' "&apos;".data
        (replaceChar '"' "&quot;".data
          (replaceChar '>' "&gt;".data
            (replaceChar '<' "&lt;".data
              (replaceChar '&' "&amp;".data (c :: cs))))) = escapeChar c ++ escList cs
    by_cases h1 : c = '&'
    · subst h1
      rw [replaceChar_cons, if_pos rfl]
      simp only [replaceChar_append, ih]
      rfl
    rw [replaceChar_cons, if_neg h1]
    simp only [replaceChar_append, ih]
    congr 1
    by_cases h2 : c = '<'
    · subst h2; decide
    by_cases h3 : c = '>'
    · subst h3; decide
    by_cases h4 : c = '"'
    · subst h4; decide
    by_cases h5 : c = '\x27'
    · subst h5; decide
    simp [replaceChar_cons, replaceChar, escapeChar, h1, h2, h3, h4, h5]

lemma escList_append (a b : List Char) :
    escList (a ++ b) = escList a ++ escList b := by
  induction a with
  | nil => rfl
  | cons c cs ih => simp [escList, ih]

/-- An escaped string never contains a raw `<` or `"`. -/
lemma escapeChar_mem {c d : Char} (h : d ∈ escapeChar c) : d ≠ '<' ∧ d ≠ '"' := by
  by_cases h1 : c = '&'
  · subst h1
    have : escapeChar '&' = ['&', 'a', 'm', 'p', ';'] := rfl
    rw [this] at h
    simp at h
    rcases h with h | h | h | h | h <;> subst h <;> exact ⟨by decide, by decide⟩
  by_cases h2 : c = '<'
  · subst h2
    have : escapeChar '<' = ['&', 'l', 't', ';'] := rfl
    rw [this] at h
    simp at h
    rcases h with h | h | h | h <;> subst h <;> exact ⟨by decide, by decide⟩
  by_cases h3 : c = '>'
  · subst h3
    have : escapeChar '>' = ['&', 'g', 't', ';'] := rfl
    rw [this] at h
    simp at h
    rcases h with h | h | h | h <;> subst h <;> exact ⟨by decide, by decide⟩
  by_cases h4 : c = '"'
  · subst h4
    have : escapeChar '"' = ['&', 'q', 'u', 'o', 't', ';'] := rfl
    rw [this] at h
    simp at h
    rcases h with h | h | h | h | h | h <;> subst h <;> exact ⟨by decide, by decide⟩
  by_cases h5 : c = '\x27'
  · subst h5
    have : escapeChar '\x27' = ['&', 'a', 'p', 'o', 's', ';'] := rfl
    rw [this] at h
    simp at h
    rcases h with h | h | h | h | h | h <;> subst h <;> exact ⟨by decide, by decide⟩
  have : escapeChar c = [c] := by simp [escapeChar, h1, h2, h3, h4, h5]
  rw [this] at h
  simp at h
  subst h
  exact ⟨h2, h4⟩

lemma escList_mem {l : List Char} {d : Char} (h : d ∈ escList l) :
    d ≠ '<' ∧ d ≠ '"' := by
  induction l with
  | nil => simp [escList] at h
  | cons c cs ih =>
    simp only [escList, List.mem_append] at h
    rcases h with h | h
    · exact escapeChar_mem h
    · exact ih h

set_option maxHeartbeats 1000000 in
/-- Entity decoding steps over any character that is not an ampersand. -/
lemma unesc_cons_ne (c : Char) (l : List Char) (h : c ≠ '&') :
    unesc (c :: l) = c :: unesc l := by
  unfold unesc
  split <;> simp_all [← unesc.eq_def]

lemma unesc_amp (r : List Char) :
    unesc ('&' :: 'a' :: 'm' :: 'p' :: ';' :: r) = '&' :: unesc r := rfl

lemma unesc_lt (r : List Char) :
    unesc ('&' :: 'l' :: 't' :: ';' :: r) = '<' :: unesc r := rfl

lemma unesc_gt (r : List Char) :
    unesc ('&' :: 'g' :: 't' :: ';' :: r) = '>' :: unesc r := rfl

lemma unesc_quot (r : List Char) :
    unesc ('&' :: 'q' :: 'u' :: 'o' :: 't' :: ';' :: r) = '"' :: unesc r := rfl

lemma unesc_apos (r : List Char) :
    unesc ('&' :: 'a' :: 'p' :: 'o' :: 's' :: ';' :: r) = '\x27' :: unesc r := rfl

lemma isWS_ne_amp {c : Char} (h : isWS c = true) : c ≠ '&' := by
  intro he
  subst he
  simp [isWS] at h

/-- Entity decoding passes whitespace through. -/
lemma unesc_ws (a b : List Char) (ha : ∀ c ∈ a, isWS c = true) :
    unesc (a ++ b) = a ++ unesc b := by
  induction a with
  | nil => rfl
  | cons c cs ih =>
    have hc : isWS c = true := ha c (by simp)
    rw [List.cons_append, unesc_cons_ne c _ (isWS_ne_amp hc),
      ih (fun x hx => ha x (by simp [hx]))]
    rfl

/-- Entity decoding inverts the escaping, with any continuation. -/
lemma unesc_escList (v b : List Char) :
    unesc (escList v ++ b) = v ++ unesc b := by
  induction v with
  | nil => rfl
  | cons c cs ih =>
    show unesc ((escapeChar c ++ escList cs) ++ b) = (c :: cs) ++ unesc b
    rw [List.append_assoc]
    by_cases h1 : c = '&'
    · subst h1
      have e0 : escapeChar '&' = ['&', 'a', 'm', 'p', ';'] := rfl
      rw [e0]
      simp only [List.cons_append, List.nil_append]
      rw [unesc_amp, ih]
    by_cases h2 : c = '<'
    · subst h2
      have e0 : escapeChar '<' = ['&', 'l', 't', ';'] := rfl
      rw [e0]
      simp only [List.cons_append, List.nil_append]
      rw [unesc_lt, ih]
    by_cases h3 : c = '>'
    · subst h3
      have e0 : escapeChar '>' = ['&', 'g', 't', ';'] := rfl
      rw [e0]
      simp only [List.cons_append, List.nil_append]
      rw [unesc_gt, ih]
    by_cases h4 : c = '"'
    · subst h4
      have e0 : escapeChar '"' = ['&', 'q', 'u', 'o', 't', ';'] := rfl
      rw [e0]
      simp only [List.cons_append, List.nil_append]
      rw [unesc_quot, ih]
    by_cases h5 : c = '\x27'
    · subst h5
      have e0 : escapeChar '\x27' = ['&', 'a', 'p', 'o', 's', ';'] := rfl
      rw [e0]
      simp only [List.cons_append, List.nil_append]
      rw [unesc_apos, ih]
    have e0 : escapeChar c = [c] := by simp [escapeChar, h1, h2, h3, h4, h5]
    rw [e0]
    simp only [List.cons_append, List.nil_append]
    rw [unesc_cons_ne c _ h1, ih]

/-! ## Span and trim lemmas (toward the round-trip C3) -/

lemma takeWhile_append_exact (p : Char → Bool) (a b : List Char)
    (ha : ∀ c ∈ a, p c = true) (hb : ∀ x, b.head? = some x → p x = false) :
    (a ++ b).takeWhile p = a := by
  induction a with
  | nil =>
    cases b with
    | nil => rfl
    | cons x xs => simp [List.takeWhile_cons, hb x rfl]
  | cons c cs ih =>
    have hc := ha c (by simp)
    simp [List.takeWhile_cons, hc, ih (fun x hx => ha x (by simp [hx]))]

lemma dropWhile_append_exact (p : Char → Bool) (a b : List Char)
    (ha : ∀ c ∈ a, p c = true) (hb : ∀ x, b.head? = some x → p x = false) :
    (a ++ b).dropWhile p = b := by
  induction a with
  | nil =>
    cases b with
    | nil => rfl
    | cons x xs => simp [List.dropWhile_cons, hb x rfl]
  | cons c cs ih =>
    have hc := ha c (by simp)
    simp [List.dropWhile_cons, hc, ih (fun x hx => ha x (by simp [hx]))]

lemma dropWhile_append_all (p : Char → Bool) (a b : List Char)
    (ha : ∀ c ∈ a, p c = true) :
    (a ++ b).dropWhile p = b.dropWhile p := by
  induction a with
  | nil => rfl
  | cons c cs ih =>
    have hc := ha c (by simp)
    simp [List.dropWhile_cons, hc, ih (fun x hx => ha x (by simp [hx]))]

lemma dropWhile_idem (p : Char → Bool) (l : List Char) :
    (l.dropWhile p).dropWhile p = l.dropWhile p := by
  induction l with
  | nil => rfl
  | cons c cs ih =>
    by_cases hc : p c = true
    · simp [List.dropWhile_cons, hc, ih]
    · simp [List.dropWhile_cons, hc]

lemma length_dropWhile_le (p : Char → Bool) (l : List Char) :
    (l.dropWhile p).length ≤ l.length := by
  induction l with
  | nil => exact le_refl _
  | cons c cs ih =>
    by_cases hc : p c = true
    · rw [List.dropWhile_cons, if_pos hc]
      exact le_trans ih (by simp)
    · rw [List.dropWhile_cons, if_neg hc]

lemma dropWhile_cons_eq_self {p : Char → Bool} {c : Char} {t : List Char}
    (h : (c :: t).dropWhile p = c :: t) : p c = false := by
  by_cases hc : p c = true
  · rw [List.dropWhile_cons, if_pos hc] at h
    have h1 := length_dropWhile_le p t
    have h2 := congrArg List.length h
    simp at h2
    omega
  · revert hc
    cases p c <;> simp

lemma trimL_eq_nil_of_ws (l : List Char) (h : ∀ c ∈ l, isWS c = true) :
    trimL l = [] := by
  unfold trimL
  rw [List.dropWhile_eq_nil_iff.mpr h]
  rfl

lemma trimL_wrap (a b s : List Char) (ha : ∀ c ∈ a, isWS c = true)
    (hb : ∀ c ∈ b, isWS c = true) :
    trimL (a ++ (s ++ b)) = trimL s := by
  unfold trimL
  rw [dropWhile_append_all isWS a (s ++ b) ha]
  by_cases hs : s.dropWhile isWS = []
  · have hsb : (s ++ b).dropWhile isWS = [] := by
      rw [List.dropWhile_append, if_pos (by simp [hs])]
      exact List.dropWhile_eq_nil_iff.mpr hb
    rw [hsb, hs]
  · have hsb : (s ++ b).dropWhile isWS = s.dropWhile isWS ++ b := by
      rw [List.dropWhile_append, if_neg (by simp [hs])]
    rw [hsb, List.reverse_append,
      dropWhile_append_all isWS b.reverse _
        (fun c hc => hb c (List.mem_reverse.mp hc))]

lemma dT_head {c : Char} {t : List Char} (hc : isWS c = false) :
    ∃ y, ((c :: t).reverse.dropWhile isWS).reverse = c :: y := by
  rw [List.reverse_cons, List.dropWhile_append]
  by_cases he : (t.reverse.dropWhile isWS).isEmpty
  · rw [if_pos he]
    refine ⟨[], ?_⟩
    simp [List.dropWhile_cons, hc]
  · rw [if_neg he]
    exact ⟨(t.reverse.dropWhile isWS).reverse, by simp⟩

lemma trimL_trimL (s : List Char) : trimL (trimL s) = trimL s := by
  cases hcx : s.dropWhile isWS with
  | nil =>
    have h0 : trimL s = [] := by unfold trimL; rw [hcx]; rfl
    rw [h0]
    rfl
  | cons c t =>
    have hself : (c :: t).dropWhile isWS = c :: t := by
      rw [← hcx]
      exact dropWhile_idem isWS s
    have hc : isWS c = false := dropWhile_cons_eq_self hself
    obtain ⟨y, hy⟩ := dT_head (t := t) hc
    have htr : trimL s = c :: y := by unfold trimL; rw [hcx, hy]
    rw [htr]
    unfold trimL
    rw [show (c :: y).dropWhile isWS = c :: y from by simp [List.dropWhile_cons, hc]]
    have h2 : (c :: y).reverse = (c :: t).reverse.dropWhile isWS := by
      rw [← hy, List.reverse_reverse]
    rw [h2, dropWhile_idem, ← h2, List.reverse_reverse]

/-! ## Character-class facts and line decomposition (toward C3) -/

lemma isWS_mem_cases {c : Char} (h : isWS c = true) :
    c = ' ' ∨ c = '\t' ∨ c = '\n' ∨ c = '\r' := by
  have h2 := h
  simp [isWS] at h2
  tauto

lemma isNameChar_not_ws {c : Char} (h : isNameChar c = true) : isWS c = false := by
  by_cases hw : isWS c = true
  · rcases isWS_mem_cases hw with h1 | h1 | h1 | h1 <;> subst h1 <;>
      exact absurd h (by decide)
  · revert hw; cases isWS c <;> simp

lemma isNameChar_ne {c : Char} (h : isNameChar c = true) :
    c ≠ '<' ∧ c ≠ '>' ∧ c ≠ '/' ∧ c ≠ '?' ∧ c ≠ '=' ∧ c ≠ '"' := by
  refine ⟨?_, ?_, ?_, ?_, ?_, ?_⟩ <;> (intro he; subst he; exact absurd h (by decide))

lemma indentStr_ws (n : Nat) : ∀ c ∈ (indentStr n).data, isWS c = true := by
  intro c hc
  have : c = ' ' := by
    simpa using List.eq_of_mem_replicate (by simpa [indentStr] using hc)
  subst this
  decide

lemma validName_cases {s : String} (h : validName s = true) :
    s.data ≠ [] ∧ ∀ c ∈ s.data, isNameChar c = true := by
  simp only [validName, Bool.and_eq_true] at h
  constructor
  · intro he
    have h1 := h.1
    rw [he] at h1
    simp at h1
  · intro c hc
    exact List.all_eq_true.mp h.2 c hc

lemma lines_decomp (L : List CapturedItem) (lvl : Nat) (h : tagHeaded L = true) :
    (reconstructLines L lvl).data =
      (indentStr (headIndent L lvl)).data ++ tagChars L lvl := by
  cases L with
  | nil => simp [tagHeaded] at h
  | cons item rest =>
    cases item with
    | text v => simp [tagHeaded] at h
    | opentag n a d =>
      show (indentStr lvl ++ "<" ++ n ++ attrText a ++ ">\n"
          ++ reconstructLines rest (lvl + 1)).data = _
      simp only [String.data_append, List.append_assoc, tagChars, headIndent]
      simp
    | closetag n d =>
      show (indentStr (lvl - 1) ++ "</" ++ n ++ ">\n"
          ++ reconstructLines rest (lvl - 1)).data = _
      simp only [String.data_append, List.append_assoc, tagChars, headIndent]
      simp

lemma attrText_data_cons (k v : String) (tl : List (String × String)) :
    (attrText ((k, v) :: tl)).data =
      ' ' :: (k.data ++ '=' :: '"' :: (escList v.data ++ '"' :: (attrText tl).data)) := by
  show (" " ++ k ++ "=\"" ++ escapeXML v ++ "\"" ++ attrText tl).data = _
  simp only [String.data_append, List.append_assoc, escapeXML_data]
  simp

lemma unesc_escList_nil (v : List Char) : unesc (escList v) = v := by
  have h := unesc_escList v []
  rw [List.append_nil, show unesc ([] : List Char) = [] from rfl, List.append_nil] at h
  exact h

lemma string_eta (s : String) : String.mk s.data = s := rfl

/-- One attribute group is consumed as one `name="value"` pair with the
value entity-decoded back to the original. -/
lemma readAttrs_step (f : Nat) (k v : String) (W : List Char)
    (hvk : validName k = true) :
    readAttrs (f + 1) (' ' :: (k.data ++ '=' :: '"' :: (escList v.data ++ '"' :: W))) =
      match readAttrs f W with
      | some (attrs, sc, r2) => some ((k, v) :: attrs, sc, r2)
      | none => none := by
  obtain ⟨hkne, hkall⟩ := validName_cases hvk
  obtain ⟨hd, tl2, hkd⟩ : ∃ hd tl2, k.data = hd :: tl2 := by
    cases hk : k.data with
    | nil => exact absurd hk hkne
    | cons x xs => exact ⟨x, xs, rfl⟩
  have hhd : isNameChar hd = true := hkall hd (by rw [hkd]; simp)
  have hcs1 : (' ' :: (k.data ++ '=' :: '"' :: (escList v.data ++ '"' :: W))).dropWhile
      isWS = k.data ++ '=' :: '"' :: (escList v.data ++ '"' :: W) := by
    rw [List.dropWhile_cons, if_pos (by decide), hkd, List.cons_append,
      List.dropWhile_cons, if_neg (by simp [isNameChar_not_ws hhd]),
      ← List.cons_append, ← hkd]
  have hname_take : (k.data ++ '=' :: '"' :: (escList v.data ++ '"' :: W)).takeWhile
      isNameChar = k.data := by
    apply takeWhile_append_exact
    · exact hkall
    · intro x hx
      simp at hx
      rw [← hx]
      decide
  have hname_drop : (k.data ++ '=' :: '"' :: (escList v.data ++ '"' :: W)).dropWhile
      isNameChar = '=' :: '"' :: (escList v.data ++ '"' :: W) := by
    apply dropWhile_append_exact
    · exact hkall
    · intro x hx
      simp at hx
      rw [← hx]
      decide
  have hval_take : (escList v.data ++ '"' :: W).takeWhile (fun c => !(c = '"')) =
      escList v.data := by
    apply takeWhile_append_exact
    · intro c hc
      have := (escList_mem hc).2
      simp [this]
    · intro x hx
      simp at hx
      rw [← hx]
      decide
  have hval_drop : (escList v.data ++ '"' :: W).dropWhile (fun c => !(c = '"')) =
      '"' :: W := by
    apply dropWhile_append_exact
    · intro c hc
      have := (escList_mem hc).2
      simp [this]
    · intro x hx
      simp at hx
      rw [← hx]
      decide
  simp only [readAttrs, hcs1]
  rw [hkd]
  simp only [List.cons_append]
  rw [if_neg (isNameChar_ne hhd).2.1, if_neg (isNameChar_ne hhd).2.2.1]
  rw [← List.cons_append, ← hkd, hname_take, hname_drop]
  simp only [List.isEmpty_iff]
  rw [if_neg (by rw [hkd]; simp)]
  simp only [hval_take, hval_drop]
  rw [unesc_escList_nil]

/-- The serialized attribute text parses back to exactly the attribute
map. -/
lemma readAttrs_gen (attrs : List (String × String)) :
    ∀ (rest : List Char) (fuel : Nat), attrs.length < fuel →
      (∀ kv ∈ attrs, validName kv.1 = true) →
      readAttrs fuel ((attrText attrs).data ++ '>' :: rest) =
        some (attrs, false, rest) := by
  induction attrs with
  | nil =>
    intro rest fuel hf hv
    cases fuel with
    | zero => omega
    | succ f =>
      rw [show (attrText []).data = ([] : List Char) from rfl, List.nil_append]
      have h1 : isWS '>' = false := by decide
      simp only [readAttrs, List.dropWhile_cons, h1]
      simp
  | cons kv tl ih =>
    intro rest fuel hf hv
    obtain ⟨k, v⟩ := kv
    cases fuel with
    | zero => omega
    | succ f =>
      rw [attrText_data_cons, List.cons_append]
      have hshape : (k.data ++ '=' :: '"' ::
            (escList v.data ++ '"' :: (attrText tl).data)) ++ '>' :: rest =
          k.data ++ '=' :: '"' ::
            (escList v.data ++ '"' :: ((attrText tl).data ++ '>' :: rest)) := by
        simp [List.append_assoc]
      rw [hshape, readAttrs_step f k v _ (hv (k, v) (by simp)),
        ih rest f (by simp at hf ⊢; omega) (fun kv2 h2 => hv kv2 (by simp [h2]))]

lemma attrText_gt_head (attrs : List (String × String)) (tail : List Char) :
    ∀ x, ((attrText attrs).data ++ '>' :: tail).head? = some x →
      isNameChar x = false := by
  cases attrs with
  | nil =>
    intro x hx
    rw [show (attrText []).data = ([] : List Char) from rfl, List.nil_append] at hx
    simp at hx
    rw [← hx]
    decide
  | cons kv tl =>
    intro x hx
    obtain ⟨k, v⟩ := kv
    rw [attrText_data_cons, List.cons_append] at hx
    simp at hx
    rw [← hx]
    decide

/-- Tokenizer step: a character-data run up to the next tag opener. -/
lemma tok_text (total f : Nat) (c : Char) (r : List Char) (st : List String)
    (hc : c ≠ '<') :
    tokenizeAux total (f + 1) (c :: r) st =
      consEvent (.text (String.mk (unesc ((c :: r).takeWhile (fun x => !(x = '<'))))))
        (tokenizeAux total f ((c :: r).dropWhile (fun x => !(x = '<'))) st) := by
  simp only [tokenizeAux]
  rw [if_neg hc]

/-- Tokenizer step: a serialized open tag with its attribute groups. -/
lemma tok_open (total f : Nat) (name : String) (attrs : List (String × String))
    (tail : List Char) (st : List String)
    (hn : validName name = true)
    (ha : ∀ kv ∈ attrs, validName kv.1 = true)
    (hfa : attrs.length < f + 1) :
    tokenizeAux total (f + 1)
        ('<' :: (name.data ++ ((attrText attrs).data ++ '>' :: tail))) st =
      consEvent (.opentag name attrs) (tokenizeAux total f tail (name :: st)) := by
  obtain ⟨hkne, hkall⟩ := validName_cases hn
  obtain ⟨hd, tl2, hkd⟩ : ∃ hd tl2, name.data = hd :: tl2 := by
    cases hk : name.data with
    | nil => exact absurd hk hkne
    | cons x xs => exact ⟨x, xs, rfl⟩
  have hhd : isNameChar hd = true := hkall hd (by rw [hkd]; simp)
  have hgt := attrText_gt_head attrs tail
  have htake : (name.data ++ ((attrText attrs).data ++ '>' :: tail)).takeWhile
      isNameChar = name.data :=
    takeWhile_append_exact _ _ _ hkall hgt
  have hdrop : (name.data ++ ((attrText attrs).data ++ '>' :: tail)).dropWhile
      isNameChar = (attrText attrs).data ++ '>' :: tail :=
    dropWhile_append_exact _ _ _ hkall hgt
  have hne : ¬ name.data.isEmpty = true := by simpa using hkne
  simp only [tokenizeAux, if_true]
  rw [hkd, List.cons_append]
  dsimp only
  rw [if_neg (isNameChar_ne hhd).2.2.2.1, if_neg (isNameChar_ne hhd).2.2.1,
    ← List.cons_append, ← hkd, htake, hdrop, if_neg hne,
    readAttrs_gen attrs tail (f + 1) hfa ha]

/-- Tokenizer step: a serialized close tag matching the stack top. -/
lemma tok_close (total f : Nat) (name : String) (tail : List Char)
    (st : List String) (hn : validName name = true) :
    tokenizeAux total (f + 1) ('<' :: '/' :: (name.data ++ '>' :: tail))
        (name :: st) =
      consEvent (.closetag name) (tokenizeAux total f tail st) := by
  obtain ⟨hkne, hkall⟩ := validName_cases hn
  have hgt : ∀ x, (('>' : Char) :: tail).head? = some x → isNameChar x = false := by
    intro x hx
    simp at hx
    rw [← hx]
    decide
  have htake : (name.data ++ '>' :: tail).takeWhile isNameChar = name.data :=
    takeWhile_append_exact _ _ _ hkall hgt
  have hdrop : (name.data ++ '>' :: tail).dropWhile isNameChar = '>' :: tail :=
    dropWhile_append_exact _ _ _ hkall hgt
  have hne : ¬ name.data.isEmpty = true := by simpa using hkne
  simp only [tokenizeAux, if_true]
  rw [if_neg (show ¬('/' : Char) = '?' from by decide), htake, hdrop]
  simp [hne, string_eta]

lemma tok_end (total f : Nat) : tokenizeAux total (f + 1) [] [] = ([], none) := by
  simp [tokenizeAux]

lemma consEvent_eq (e : ParseEvent) (E : List ParseEvent)
    (err : Option (String × Nat)) : consEvent e (E, err) = (e :: E, err) := rfl

lemma isWS_ne_lt {c : Char} (h : isWS c = true) : c ≠ '<' := by
  intro he
  subst he
  simp [isWS] at h

lemma tagChars_head (L : List CapturedItem) (lvl : Nat)
    (h : tagHeaded L = true) : ∃ X, tagChars L lvl = '<' :: X := by
  cases L with
  | nil => simp [tagHeaded] at h
  | cons item rest =>
    cases item with
    | text v => simp [tagHeaded] at h
    | opentag n a d => exact ⟨_, rfl⟩
    | closetag n d => exact ⟨_, rfl⟩

lemma attrText_length (attrs : List (String × String)) :
    attrs.length ≤ (attrText attrs).data.length := by
  induction attrs with
  | nil => simp
  | cons kv tl ih =>
    obtain ⟨k, v⟩ := kv
    rw [attrText_data_cons]
    simp only [List.length_cons, List.length_append]
    omega

/-- The round-trip at an empty continuation and empty stack: only the
trailing newline remains, a whitespace-only text event. -/
lemma tokP_nil : TokP [] := by
  intro st lvl fuel total hwf hfuel
  have hst : st = [] := by simpa [wfItems, List.isEmpty_iff] using hwf
  subst hst
  rw [show (reconstructLines [] lvl).data = ([] : List Char) from rfl] at hfuel ⊢
  obtain ⟨f, rfl⟩ : ∃ f, fuel = f + 1 := ⟨fuel - 1, by simp at hfuel; omega⟩
  rw [tok_text total f '\n' [] [] (by decide),
    show (['\n'] : List Char).takeWhile (fun x => !(x = '<')) = ['\n'] from by decide,
    show (['\n'] : List Char).dropWhile (fun x => !(x = '<')) = [] from by decide]
  obtain ⟨f2, rfl⟩ : ∃ f2, f = f2 + 1 := ⟨f - 1, by simp at hfuel; omega⟩
  rw [tok_end, consEvent_eq]
  exact ⟨[.text (String.mk (unesc ['\n']))], rfl, by decide⟩

lemma normEvents_cons_open (n : String) (a : List (String × String))
    (E : List ParseEvent) :
    normEvents (.opentag n a :: E) = .opentag n a :: normEvents E := by
  simp [normEvents]

lemma normEvents_cons_close (n : String) (E : List ParseEvent) :
    normEvents (.closetag n :: E) = .closetag n :: normEvents E := by
  simp [normEvents]

lemma normItems_cons_open (n : String) (a : List (String × String)) (d : Int)
    (rest : List CapturedItem) :
    normItems (.opentag n a d :: rest) = .opentag n a :: normItems rest := by
  simp [normItems, normEvents, itemEvent]

lemma normItems_cons_close (n : String) (d : Int) (rest : List CapturedItem) :
    normItems (.closetag n d :: rest) = .closetag n :: normItems rest := by
  simp [normItems, normEvents, itemEvent]

/-- Round-trip, open-tag head: parse the serialized open tag, then the
re-serialized body by induction. -/
lemma tokQ_open (name : String) (attrs : List (String × String)) (dep : Int)
    (rest : List CapturedItem) (ihP : TokP rest) :
    TokQ (.opentag name attrs dep :: rest) := by
  intro _ st lvl fuel total hwf hfuel
  simp only [wfItems, Bool.and_eq_true] at hwf
  obtain ⟨⟨hvn, hva⟩, hwfr⟩ := hwf
  have hvattrs : ∀ kv ∈ attrs, validName kv.1 = true := fun kv hkv =>
    List.all_eq_true.mp hva kv hkv
  have He : tagChars (.opentag name attrs dep :: rest) lvl =
      '<' :: (name.data ++ ((attrText attrs).data
        ++ '>' :: ('\n' :: (reconstructLines rest (lvl + 1)).data))) := by
    simp [tagChars, List.append_assoc]
  rw [He] at hfuel ⊢
  obtain ⟨f, rfl⟩ : ∃ f, fuel = f + 1 := ⟨fuel - 1, by omega⟩
  have hlen : (('<' :: (name.data ++ ((attrText attrs).data
      ++ '>' :: ('\n' :: (reconstructLines rest (lvl + 1)).data))))).length =
      1 + name.data.length + (attrText attrs).data.length + 2
        + (reconstructLines rest (lvl + 1)).data.length := by
    simp [List.length_append]
    omega
  have hfa : attrs.length < f + 1 := by
    have h1 := attrText_length attrs
    rw [hlen] at hfuel
    omega
  rw [tok_open total f name attrs _ st hvn hvattrs hfa]
  have hfuel2 : ('\n' :: (reconstructLines rest (lvl + 1)).data).length < f := by
    rw [hlen] at hfuel
    have h2 : 1 ≤ name.data.length := by
      have := (validName_cases hvn).1
      cases hk : name.data with
      | nil => exact absurd hk this
      | cons x xs => simp [hk]
    simp only [List.length_cons]
    omega
  obtain ⟨E, hE, hnorm⟩ := ihP (name :: st) (lvl + 1) f total hwfr hfuel2
  rw [hE, consEvent_eq]
  refine ⟨.opentag name attrs :: E, rfl, ?_⟩
  rw [normEvents_cons_open, normItems_cons_open, hnorm]

/-- Round-trip, close-tag head: parse the serialized close tag (the
stack top matches by well-formedness), then the re-serialized
continuation. -/
lemma tokQ_close (name : String) (dep : Int) (rest : List CapturedItem)
    (ihP : TokP rest) : TokQ (.closetag name dep :: rest) := by
  intro _ st lvl fuel total hwf hfuel
  cases st with
  | nil => simp [wfItems] at hwf
  | cons top st2 =>
    simp only [wfItems, Bool.and_eq_true, beq_iff_eq] at hwf
    obtain ⟨⟨hvn, htop⟩, hrest⟩ := hwf
    subst htop
    have He : tagChars (.closetag top dep :: rest) lvl =
        '<' :: '/' :: (top.data ++ '>'
          :: ('\n' :: (reconstructLines rest (lvl - 1)).data)) := by
      simp [tagChars]
    rw [He] at hfuel ⊢
    obtain ⟨f, rfl⟩ : ∃ f, fuel = f + 1 := ⟨fuel - 1, by omega⟩
    rw [tok_close total f top _ st2 hvn]
    have hfuel2 : ('\n' :: (reconstructLines rest (lvl - 1)).data).length < f := by
      simp only [List.length_cons, List.length_append] at hfuel ⊢
      omega
    cases st2 with
    | nil =>
      have hrnil : rest = [] := by simpa [List.isEmpty_iff] using hrest
      subst hrnil
      obtain ⟨E, hE, hnorm⟩ := tokP_nil [] (lvl - 1) f total (by simp [wfItems]) hfuel2
      rw [hE, consEvent_eq]
      refine ⟨.closetag top :: E, rfl, ?_⟩
      rw [normEvents_cons_close, normItems_cons_close, hnorm]
    | cons s2h s2t =>
      have hwfr : wfItems rest (s2h :: s2t) = true := by simpa using hrest
      obtain ⟨E, hE, hnorm⟩ := ihP (s2h :: s2t) (lvl - 1) f total hwfr hfuel2
      rw [hE, consEvent_eq]
      refine ⟨.closetag top :: E, rfl, ?_⟩
      rw [normEvents_cons_close, normItems_cons_close, hnorm]

/-- Round-trip, line boundary before a tag line: the newline and
indentation form a whitespace-only text event that normalization
drops. -/
lemma tokP_tag (item : CapturedItem) (rest : List CapturedItem)
    (htag : tagHeaded (item :: rest) = true)
    (hQ : TokQ (item :: rest)) : TokP (item :: rest) := by
  intro st lvl fuel total hwf hfuel
  rw [lines_decomp _ lvl htag] at hfuel ⊢
  obtain ⟨f, rfl⟩ : ∃ f, fuel = f + 1 := ⟨fuel - 1, by omega⟩
  rw [tok_text total f '\n' _ st (by decide)]
  obtain ⟨X, hX⟩ := tagChars_head (item :: rest) lvl htag
  have hA : ∀ c ∈ ('\n' :: (indentStr (headIndent (item :: rest) lvl)).data),
      (fun x => !(x = '<')) c = true := by
    intro c hc
    simp only [List.mem_cons] at hc
    rcases hc with hc | hc
    · subst hc; decide
    · have hw := indentStr_ws _ c hc
      simp [isWS_ne_lt hw]
  have hBhead : ∀ x, (tagChars (item :: rest) lvl).head? = some x →
      (fun x => !(x = '<')) x = false := by
    intro x hx
    rw [hX] at hx
    simp at hx
    rw [← hx]
    decide
  have hshape : ('\n' :: ((indentStr (headIndent (item :: rest) lvl)).data
      ++ tagChars (item :: rest) lvl)) =
      ('\n' :: (indentStr (headIndent (item :: rest) lvl)).data)
        ++ tagChars (item :: rest) lvl := by
    simp
  rw [hshape, takeWhile_append_exact _ _ _ hA hBhead,
    dropWhile_append_exact _ _ _ hA hBhead]
  have hfuel2 : (tagChars (item :: rest) lvl).length < f := by
    simp only [List.length_cons, List.length_append] at hfuel
    omega
  obtain ⟨E, hE, hnorm⟩ := hQ htag st lvl f total hwf hfuel2
  rw [hE, consEvent_eq]
  have hwsA : ∀ c ∈ ('\n' :: (indentStr (headIndent (item :: rest) lvl)).data),
      isWS c = true := by
    intro c hc
    simp only [List.mem_cons] at hc
    rcases hc with hc | hc
    · subst hc; decide
    · exact indentStr_ws _ c hc
  have hunesc : unesc ('\n' :: (indentStr (headIndent (item :: rest) lvl)).data) =
      '\n' :: (indentStr (headIndent (item :: rest) lvl)).data := by
    have h := unesc_ws ('\n' :: (indentStr (headIndent (item :: rest) lvl)).data)
      [] hwsA
    have h0 : unesc ([] : List Char) = [] := rfl
    rw [h0, List.append_nil] at h
    exact h
  have hT : jsTrim (String.mk (unesc
      ('\n' :: (indentStr (headIndent (item :: rest) lvl)).data))) = "" := by
    rw [hunesc]
    show String.mk (trimL ('\n' :: (indentStr (headIndent (item :: rest) lvl)).data)) = ""
    rw [trimL_eq_nil_of_ws _ hwsA]
  refine ⟨_, rfl, ?_⟩
  rw [show normEvents (.text (String.mk (unesc
      ('\n' :: (indentStr (headIndent (item :: rest) lvl)).data))) :: E) =
      normEvents E from by simp [normEvents, hT], hnorm]

/-- Round-trip, line boundary before a text line: the leading
whitespace and the escaped payload decode to a text event whose trim is
the original trimmed value. -/
lemma tokP_text (v : String) (rest : List CapturedItem)
    (hQrest : TokQ rest) : TokP (.text v :: rest) := by
  intro st lvl fuel total hwf hfuel
  have hwf2 := hwf
  simp only [wfItems, Bool.and_eq_true] at hwf2
  obtain ⟨⟨⟨h1, h2⟩, h3⟩, h4⟩ := hwf2
  have h2v : ¬ jsTrim v = "" := by simpa using h2
  have htag : tagHeaded rest = true := by
    cases rest with
    | nil => simp at h3
    | cons it r2 =>
      cases it with
      | text w => simp at h3
      | opentag a b c => rfl
      | closetag a b => rfl
  have hre : ('\n' :: (reconstructLines (.text v :: rest) lvl).data) =
      '\n' :: (((indentStr lvl).data ++ (escList (jsTrim v).data
        ++ '\n' :: (indentStr (headIndent rest lvl)).data))
        ++ tagChars rest lvl) := by
    show ('\n' :: (indentStr lvl ++ escapeXML (jsTrim v) ++ "\n"
        ++ reconstructLines rest lvl).data) = _
    have hnl : ("\n" : String).data = ['\n'] := rfl
    simp only [String.data_append, escapeXML_data, hnl,
      lines_decomp rest lvl htag]
    simp
  rw [hre] at hfuel ⊢
  obtain ⟨f, rfl⟩ : ∃ f, fuel = f + 1 := ⟨fuel - 1, by omega⟩
  rw [tok_text total f '\n' _ st (by decide)]
  have hsplit : ('\n' :: (((indentStr lvl).data ++ (escList (jsTrim v).data
      ++ '\n' :: (indentStr (headIndent rest lvl)).data))
      ++ tagChars rest lvl)) =
      ('\n' :: ((indentStr lvl).data ++ (escList (jsTrim v).data
        ++ '\n' :: (indentStr (headIndent rest lvl)).data)))
      ++ tagChars rest lvl := by
    simp
  have hA : ∀ c ∈ ('\n' :: ((indentStr lvl).data ++ (escList (jsTrim v).data
      ++ '\n' :: (indentStr (headIndent rest lvl)).data))),
      (fun x => !(x = '<')) c = true := by
    intro c hc
    simp only [List.mem_cons, List.mem_append] at hc
    rcases hc with hc | hc | hc | hc | hc
    · subst hc; decide
    · have hw := indentStr_ws _ c hc
      simp [isWS_ne_lt hw]
    · simp [(escList_mem hc).1]
    · subst hc; decide
    · have hw := indentStr_ws _ c hc
      simp [isWS_ne_lt hw]
  obtain ⟨X, hX⟩ := tagChars_head rest lvl htag
  have hBhead : ∀ x, (tagChars rest lvl).head? = some x →
      (fun x => !(x = '<')) x = false := by
    intro x hx
    rw [hX] at hx
    simp at hx
    rw [← hx]
    decide
  rw [hsplit, takeWhile_append_exact _ _ _ hA hBhead,
    dropWhile_append_exact _ _ _ hA hBhead]
  have hfuel2 : (tagChars rest lvl).length < f := by
    simp only [List.length_cons, List.length_append] at hfuel
    omega
  obtain ⟨E, hE, hnorm⟩ := hQrest htag st lvl f total h4 hfuel2
  rw [hE, consEvent_eq]
  have hwsP : ∀ c ∈ ('\n' :: (indentStr lvl).data), isWS c = true := by
    intro c hc
    simp only [List.mem_cons] at hc
    rcases hc with hc | hc
    · subst hc; decide
    · exact indentStr_ws _ c hc
  have hwsS : ∀ c ∈ ('\n' :: (indentStr (headIndent rest lvl)).data),
      isWS c = true := by
    intro c hc
    simp only [List.mem_cons] at hc
    rcases hc with hc | hc
    · subst hc; decide
    · exact indentStr_ws _ c hc
  have hupre : unesc (('\n' :: (indentStr lvl).data) ++ (escList (jsTrim v).data
      ++ ('\n' :: (indentStr (headIndent rest lvl)).data))) =
      ('\n' :: (indentStr lvl).data) ++ ((jsTrim v).data
        ++ ('\n' :: (indentStr (headIndent rest lvl)).data)) := by
    rw [unesc_ws _ _ hwsP, unesc_escList]
    have h0 : unesc ([] : List Char) = [] := rfl
    have h5 := unesc_ws ('\n' :: (indentStr (headIndent rest lvl)).data) [] hwsS
    rw [h0, List.append_nil] at h5
    rw [h5]
  have hT : jsTrim (String.mk (unesc ('\n' :: ((indentStr lvl).data
      ++ (escList (jsTrim v).data
        ++ '\n' :: (indentStr (headIndent rest lvl)).data))))) = jsTrim v := by
    rw [show ('\n' :: ((indentStr lvl).data ++ (escList (jsTrim v).data
      ++ '\n' :: (indentStr (headIndent rest lvl)).data))) =
      (('\n' :: (indentStr lvl).data) ++ (escList (jsTrim v).data
      ++ ('\n' :: (indentStr (headIndent rest lvl)).data))) from rfl, hupre]
    show String.mk (trimL _) = _
    rw [trimL_wrap _ _ _ hwsP hwsS]
    show String.mk (trimL (trimL v.data)) = _
    rw [trimL_trimL]
    rfl
  refine ⟨_, rfl, ?_⟩
  rw [show normEvents (.text (String.mk (unesc ('\n' :: ((indentStr lvl).data
      ++ (escList (jsTrim v).data
        ++ '\n' :: (indentStr (headIndent rest lvl)).data))))) :: E) =
      .text (jsTrim v) :: normEvents E from by
    simp [normEvents, List.filterMap_cons, hT, h2v], hnorm]
  rw [show normItems (CapturedItem.text v :: rest) =
      .text (jsTrim v) :: normItems rest from by
    simp [normItems, itemEvent, normEvents, List.filterMap_cons, h2v]]

/-- Both round-trip statements hold for every buffer, by strong
induction on its length. -/
lemma roundtrip_main : ∀ n (L : List CapturedItem), L.length ≤ n →
    TokQ L ∧ TokP L := by
  intro n
  induction n with
  | zero =>
    intro L hL
    have hnil : L = [] := List.length_eq_zero.mp (Nat.le_zero.mp hL)
    subst hnil
    exact ⟨fun htag => by simp [tagHeaded] at htag, tokP_nil⟩
  | succ n ih =>
    intro L hL
    cases L with
    | nil => exact ⟨fun htag => by simp [tagHeaded] at htag, tokP_nil⟩
    | cons item rest =>
      have hlen : rest.length ≤ n := by
        simp only [List.length_cons] at hL
        omega
      have hQ : TokQ (item :: rest) := by
        cases item with
        | opentag nm a d => exact tokQ_open nm a d rest (ih rest hlen).2
        | closetag nm d => exact tokQ_close nm d rest (ih rest hlen).2
        | text w => exact fun htag => by simp [tagHeaded] at htag
      have hP : TokP (item :: rest) := by
        cases item with
        | opentag nm a d => exact tokP_tag _ rest rfl hQ
        | closetag nm d => exact tokP_tag _ rest rfl hQ
        | text w => exact tokP_text w rest (ih rest hlen).1
      exact ⟨hQ, hP⟩

/-- The tokenizer skips the XML prologue emitted by `reconstructXML` in
one step. -/
lemma tok_prologue (total f : Nat) (tail : List Char) (st : List String) :
    tokenizeAux total (f + 1)
      ('<' :: '?' :: (("xml version=\"1.0\" encoding=\"UTF-8\"?" : String).data
        ++ '>' :: tail)) st = tokenizeAux total f tail st := by
  have hM : ∀ c ∈ ("xml version=\"1.0\" encoding=\"UTF-8\"?" : String).data,
      (fun c => !(c = '>')) c = true := by decide
  have hh : ∀ x, (('>' :: tail).head? = some x) →
      (fun c => !(c = '>')) x = false := by
    intro x hx
    simp at hx
    rw [← hx]
    decide
  have hdw := dropWhile_append_exact _ _ ('>' :: tail) hM hh
  simp only [tokenizeAux, if_true]
  rw [hdw]
  rfl

set_option maxRecDepth 8000 in
/-- Claim C3: re-parsing a component's re-serialized XML yields, up to
whitespace normalization (whitespace-only text events dropped and text
values trimmed), exactly the captured event sequence: re-indentation
changes surrounding whitespace but loses no structure, attribute or
non-whitespace text. -/
theorem c3_serialize_roundtrip (b : List CapturedItem)
    (hwf : wfBuffer b = true) :
    (tokenize (reconstructXML b)).2 = none ∧
      normEvents (tokenize (reconstructXML b)).1 = normItems b := by
  have hwfI : wfItems b [] = true := by
    cases b with
    | nil => simp [wfBuffer] at hwf
    | cons item rest =>
      cases item with
      | opentag n a d => simpa [wfBuffer] using hwf
      | text v => simp [wfBuffer] at hwf
      | closetag n d => simp [wfBuffer] at hwf
  have hP : TokP b := (roundtrip_main b.length b (le_refl _)).2
  have hdoc : (reconstructXML b).data =
      '<' :: '?' :: (("xml version=\"1.0\" encoding=\"UTF-8\"?" : String).data
        ++ '>' :: ('\n' :: (reconstructLines b 0).data)) := by
    show ("<?xml version=\"1.0\" encoding=\"UTF-8\"?>\n"
        ++ reconstructLines b 0).data = _
    rw [String.data_append]
    rw [show ("<?xml version=\"1.0\" encoding=\"UTF-8\"?>\n" : String).data =
      '<' :: '?' :: (("xml version=\"1.0\" encoding=\"UTF-8\"?" : String).data
        ++ '>' :: ['\n']) from rfl]
    simp
  have hmid : ("xml version=\"1.0\" encoding=\"UTF-8\"?" : String).data.length
      = 35 := by decide
  have hfuel : ('\n' :: (reconstructLines b 0).data).length <
      (reconstructXML b).data.length := by
    rw [hdoc]
    simp only [List.length_cons, List.length_append, hmid]
    omega
  obtain ⟨E, hE, hnorm⟩ := hP [] 0 (reconstructXML b).data.length
      (reconstructXML b).data.length hwfI hfuel
  have hNX : (reconstructXML b).data.length =
      ('<' :: '?' :: (("xml version=\"1.0\" encoding=\"UTF-8\"?" : String).data
        ++ '>' :: ('\n' :: (reconstructLines b 0).data))).length := by
    rw [hdoc]
  have hrun : tokenize (reconstructXML b) = (E, none) := by
    show tokenizeAux (reconstructXML b).data.length
        ((reconstructXML b).data.length + 1) (reconstructXML b).data [] =
      (E, none)
    rw [hdoc, ← hNX, tok_prologue]
    exact hE
  rw [hrun]
  exact ⟨rfl, hnorm⟩

set_option maxRecDepth 8000 in
/-- Witness for C3: a concrete coachView capture with an attribute and
an ampersand in its text round-trips to its normalized event list. -/
theorem c3_witness :
    wfBuffer [CapturedItem.opentag "coachView" [("id", "A")] 0,
        CapturedItem.text " x & y ", CapturedItem.closetag "coachView" 0] = true ∧
      ((tokenize (reconstructXML
          [CapturedItem.opentag "coachView" [("id", "A")] 0,
            CapturedItem.text " x & y ",
            CapturedItem.closetag "coachView" 0])).2 = none ∧
        normEvents (tokenize (reconstructXML
          [CapturedItem.opentag "coachView" [("id", "A")] 0,
            CapturedItem.text " x & y ",
            CapturedItem.closetag "coachView" 0])).1 =
          normItems [CapturedItem.opentag "coachView" [("id", "A")] 0,
            CapturedItem.text " x & y ",
            CapturedItem.closetag "coachView" 0]) :=
  ⟨by decide, c3_serialize_roundtrip _ (by decide)⟩

end BPMNExtract
